import Mathlib

/-!
Shallow embedding of the phase-detection engine of `nnaps.mesa.evolution_phases`
(files `src/nnaps/mesa/evolution_phases.py`), together with theorems settling the
frozen claims about its specification.

Modelling conventions:
* a numpy structured history array becomes a `History`: a row count `n` and a list
  of named columns, each column a total function `ℕ → ℚ` (64-bit floats are
  modelled as exact rationals; rational division is total with `x / 0 = 0`);
* fallible numpy operations (field lookup on a missing column, indexing an empty
  selection, reducing an empty array) become `Except DetErr`;
* `np.where(mask)` on a boolean row mask becomes the sorted list of row indices
  satisfying the mask (`idxWhere`);
* the process-global interpolated ignition curve `HeIgF` (loaded from the bundled
  `helium_burn.data`, which is not part of the sources) is threaded through the
  detectors that use it as an explicit function parameter `heIgF : ℚ → ℚ`;
* the only genuinely real-valued quantity, the time-weighted average
  `np.average(x, weights=10 ** log_dt)`, is modelled over `ℝ` with real powers;
  the detectors consuming it (`sdA`, `sdB`, `sdO`) are therefore stated with
  classical decidability for their band tests.
-/

namespace NNaps

attribute [local semireducible] Rat.add Rat.mul Rat.inv Rat.sub

/-- A MESA history: `n` rows, and named numeric columns (each total on `ℕ`;
only indices `< n` are ever read). Mirrors a numpy structured array. -/
structure History where
  n : ℕ
  cols : List (String × (ℕ → ℚ))

/-- Failure modes of the Python code: the descriptive `ValueError` raised by
`_check_history_parameters` (carrying the phase name, the required list and the
missing list), a raw field-lookup failure on a structured array (`KeyError`),
and indexing/reducing an empty array (`IndexError`/`ValueError`). -/
inductive DetErr where
  | missingParams (phase : String) (required missing : List String)
  | keyError (colName : String)
  | indexError
deriving DecidableEq

deriving instance DecidableEq for Except

/-- Detector computations that can raise. -/
abbrev M (α : Type) := Except DetErr α

/-- Fallible field lookup `data[name]`, as numpy does on a structured array. -/
def getCol (h : History) (name : String) : M (ℕ → ℚ) :=
  match List.lookup name h.cols with
  | some f => .ok f
  | none => .error (.keyError name)

/-- Model of `name in history.dtype.names`. -/
def hasCol (h : History) (name : String) : Bool :=
  (List.lookup name h.cols).isSome

/-- Total column access, used only after `check_history_parameters` has
validated the column's presence (the default is then never reached). -/
def col (h : History) (name : String) : ℕ → ℚ :=
  (List.lookup name h.cols).getD (fun _ => 0)

/-- Model of `_check_history_parameters(history, parameters, evol_phase)`: collect the
required parameters that are not columns of the history and raise a descriptive
error when any is missing. -/
def check_history_parameters (h : History) (pars : List String) (phase : String) :
    M Unit :=
  let missing := pars.filter (fun p => !hasCol h p)
  if missing.isEmpty then .ok () else .error (.missingParams phase pars missing)

/-- Model of `np.where(mask)` over the rows: the sorted indices `i < n` with `p i`. -/
def idxWhere (n : ℕ) (p : ℕ → Bool) : List ℕ :=
  (List.range n).filter p

/-- Model of `arr[0]`: raises on an empty array. -/
def first? : List α → M α
  | [] => .error .indexError
  | x :: _ => .ok x

/-- Model of `arr[-1]`: raises on an empty array. -/
def last? (l : List α) : M α :=
  match l.getLast? with
  | some x => .ok x
  | none => .error .indexError

/-- Model of `np.max(arr)`: raises on an empty array. -/
def nmax? : List ℚ → M ℚ
  | [] => .error .indexError
  | x :: xs => .ok (xs.foldl max x)

/-- Model of `np.min(arr)`: raises on an empty array. -/
def nmin? : List ℚ → M ℚ
  | [] => .error .indexError
  | x :: xs => .ok (xs.foldl min x)

/-- Model of `any(mask)` over the rows. -/
def anyRow (n : ℕ) (p : ℕ → Bool) : Bool :=
  (List.range n).any p

/-- Model of `all(mask)` over the rows. -/
def allRow (n : ℕ) (p : ℕ → Bool) : Bool :=
  (List.range n).all p

/-- The five aggregate functions of `known_functions`. -/
inductive AggFunc where
  | min | max | avg | diff | rate
deriving DecidableEq

/-- Lookup in the `known_functions` dictionary by name. -/
def AggFunc.ofName? (s : String) : Option AggFunc :=
  if s = "min" then some .min
  else if s = "max" then some .max
  else if s = "avg" then some .avg
  else if s = "diff" then some .diff
  else if s = "rate" then some .rate
  else none

/-- Helper for splitting a character list on a literal double underscore
(leftmost, non-overlapping, as Python's `str.split("__")`). -/
def splitDunderAux : List Char → List Char → List String
  | [], acc => [String.mk acc.reverse]
  | '_' :: '_' :: rest, acc => String.mk acc.reverse :: splitDunderAux rest []
  | c :: rest, acc => splitDunderAux rest (c :: acc)

/-- Model of `par.split('__')`. -/
def splitDunder (s : String) : List String :=
  splitDunderAux s.data []

/-- Model of `decompose_parameter(par)`: split on a literal double underscore and return
`(pname, phase, func)` exactly as the Python code does.  A three-part name whose
third part is not a known function raises a `KeyError` (Python indexes
`known_functions[parts[2]]` directly); four or more parts leave all three
results `None`. -/
def decompose_parameter (par : String) : M (Option String × Option String × Option AggFunc) :=
  let parts := splitDunder par
  match parts with
  | [p] => .ok (some p, none, some .avg)
  | [p0, p1] =>
    if (AggFunc.ofName? p1).isSome then .ok (some p0, none, AggFunc.ofName? p1)
    else .ok (some p0, some p1, some .avg)
  | [p0, p1, p2] =>
    match AggFunc.ofName? p2 with
    | some f => .ok (some p0, some p1, some f)
    | none => .error (.keyError p2)
  | _ => .ok (none, none, none)

/-- Required parameters of `MS`. -/
def msPars : List String := ["log_L", "log_LH", "center_h1", "age"]

/-- Required parameters of `RGB`. -/
def rgbPars : List String := ["log_L", "center_h1", "center_he4", "effective_T", "age"]

/-- Required parameters of `HeIgnition`. -/
def heIgnPars : List String := ["log_LHe", "c_core_mass", "age"]

/-- Required parameters of `HeCoreBurning`. -/
def heCorePars : List String := ["log_center_T", "log_center_Rho", "log_LHe", "c_core_mass", "age"]

/-- Required parameters of `HeShellBurning`. -/
def heShellPars : List String := ["log_LHe", "c_core_mass", "age"]

/-- Required parameters of `sdA`, `sdB` and `sdO`. -/
def sdPars : List String := ["log_center_T", "log_center_Rho", "log_LHe", "c_core_mass", "log_Teff", "age"]

/-- Required parameters of `He_WD`. -/
def heWdPars : List String := ["log_LHe", "c_core_mass", "log_Teff", "log_g", "age"]

/-- Required parameters of `ML`, `MLstart` and `MLend`. -/
def mlPars : List String := ["lg_mstar_dot_1", "age"]

/-- Model of `init(data)`: always the selection `([0],)`. -/
def init (_h : History) : M (Option (List ℕ)) :=
  .ok (some [0])

/-- Model of `final(data)`: always the selection `([data.shape[0]-1],)`. -/
def final (h : History) : M (Option (List ℕ)) :=
  .ok (some [h.n - 1])

/-- Model of `MS(data)`: main sequence.  Start: first row with
`log_LH / log_L > 0.999`; end: first row with `center_h1 < 1e-12`, else the
last row; the selection is all rows whose age lies between the two ages. -/
def MS (h : History) : M (Option (List ℕ)) :=
  match check_history_parameters h msPars "MS" with
  | .error e => .error e
  | .ok _ =>
    let logL := col h "log_L"
    let logLH := col h "log_LH"
    let h1 := col h "center_h1"
    let age := col h "age"
    if !anyRow h.n (fun i => decide (999/1000 < logLH i / logL i)) then .ok none
    else
      match first? ((idxWhere h.n (fun i => decide (999/1000 < logLH i / logL i))).map age) with
      | .error e => .error e
      | .ok a1 =>
        match (if !anyRow h.n (fun i => decide (h1 i < 1 / 10 ^ 12)) then
                last? ((List.range h.n).map age)
              else
                first? ((idxWhere h.n (fun i => decide (h1 i < 1 / 10 ^ 12))).map age)) with
        | .error e => .error e
        | .ok a2 =>
          .ok (some (idxWhere h.n (fun i => decide (a1 ≤ age i) && decide (age i ≤ a2))))

/-- Model of `RGB(data)`: red giant branch.  NOTE: the absent-guard of the source tests
`center_h1 < 1e12` (not `1e-12`): this is kept verbatim here. -/
def RGB (h : History) : M (Option (List ℕ)) :=
  match check_history_parameters h rgbPars "RGB" with
  | .error e => .error e
  | .ok _ =>
    let logL := col h "log_L"
    let h1 := col h "center_h1"
    let che := col h "center_he4"
    let teff := col h "effective_T"
    let age := col h "age"
    if !anyRow h.n (fun i => decide (h1 i < 10 ^ 12)) then .ok none
    else
      match first? ((idxWhere h.n (fun i => decide (h1 i < 1 / 10 ^ 12))).map age) with
      | .error e => .error e
      | .ok a1 =>
        match first? ((idxWhere h.n (fun i => decide (h1 i < 1 / 10 ^ 12))).map che) with
        | .error e => .error e
        | .ok cheTams =>
          let drgb := idxWhere h.n (fun i => decide (cheTams - 1/100 ≤ che i))
          match nmin? (drgb.map teff) with
          | .error e => .error e
          | .ok tmin =>
            match nmax? (drgb.map logL) with
            | .error e => .error e
            | .ok lmax =>
              match first? ((drgb.filter
                  (fun i => decide (teff i = tmin) || decide (logL i = lmax))).map age) with
              | .error e => .error e
              | .ok a2 =>
                .ok (some (idxWhere h.n (fun i => decide (a1 ≤ age i) && decide (age i ≤ a2))))

/-- Model of `HeIgnition(data)`: the row(s) of maximal `log_LHe` between the first row
with `log_LHe > 1` and the end of CO-core formation.  NOTE: the source's guard
`np.all(data['c_core_mass']) < 0.01` compares a boolean to `0.01`, so it is
equivalent to "some `c_core_mass` entry equals zero"; kept verbatim. -/
def HeIgnition (h : History) : M (Option (List ℕ)) :=
  match check_history_parameters h heIgnPars "HeIgnition" with
  | .error e => .error e
  | .ok _ =>
    let lhe := col h "log_LHe"
    let c := col h "c_core_mass"
    let age := col h "age"
    if allRow h.n (fun i => decide (lhe i < 1)) then .ok none
    else
      match first? ((idxWhere h.n (fun i => decide (1 < lhe i))).map age) with
      | .error e => .error e
      | .ok a1 =>
        match (if anyRow h.n (fun i => decide (c i = 0)) then
                last? ((List.range h.n).map age)
              else
                first? ((idxWhere h.n (fun i => decide (1/100 ≤ c i))).map age)) with
        | .error e => .error e
        | .ok a2 =>
          match nmax? ((idxWhere h.n
              (fun i => decide (a1 ≤ age i) && decide (age i ≤ a2))).map lhe) with
          | .error e => .error e
          | .ok m =>
            .ok (some (idxWhere h.n (fun i =>
              decide (lhe i = m) && decide (a1 ≤ age i) && decide (age i ≤ a2))))

/-- Model of `HeCoreBurning(data)`: from He ignition (central temperature reaching the
ignition curve `heIgF` at the central density) while the CO core mass is still
`≤ 0.01`. -/
def HeCoreBurning (heIgF : ℚ → ℚ) (h : History) : M (Option (List ℕ)) :=
  match check_history_parameters h heCorePars "HeCoreBurning" with
  | .error e => .error e
  | .ok _ =>
    let tc := col h "log_center_T"
    let rho := col h "log_center_Rho"
    let lhe := col h "log_LHe"
    let c := col h "c_core_mass"
    let age := col h "age"
    if allRow h.n (fun i => decide (lhe i < 1)) ||
        allRow h.n (fun i => decide (tc i < heIgF (rho i))) then .ok none
    else
      match first? ((idxWhere h.n (fun i => decide (heIgF (rho i) ≤ tc i))).map age) with
      | .error e => .error e
      | .ok a1 =>
        if allRow h.n (fun i => decide (c i < 1/100)) then .ok none
        else
          .ok (some (idxWhere h.n (fun i => decide (a1 ≤ age i) && decide (c i ≤ 1/100))))

/-- Model of `HeCoreBurning(data, return_age=True)`: the `(a1, a2)` age pair of the same
phase, `a2` being the last age of the selected rows (raises on an empty
selection). -/
def HeCoreBurningAges (heIgF : ℚ → ℚ) (h : History) : M (Option (ℚ × ℚ)) :=
  match check_history_parameters h heCorePars "HeCoreBurning" with
  | .error e => .error e
  | .ok _ =>
    let tc := col h "log_center_T"
    let rho := col h "log_center_Rho"
    let lhe := col h "log_LHe"
    let c := col h "c_core_mass"
    let age := col h "age"
    if allRow h.n (fun i => decide (lhe i < 1)) ||
        allRow h.n (fun i => decide (tc i < heIgF (rho i))) then .ok none
    else
      match first? ((idxWhere h.n (fun i => decide (heIgF (rho i) ≤ tc i))).map age) with
      | .error e => .error e
      | .ok a1 =>
        if allRow h.n (fun i => decide (c i < 1/100)) then .ok none
        else
          match last? ((idxWhere h.n
              (fun i => decide (a1 ≤ age i) && decide (c i ≤ 1/100))).map age) with
          | .error e => .error e
          | .ok a2 => .ok (some (a1, a2))

/-- Model of `HeShellBurning(data)`: from CO-core formation (`c_core_mass ≥ 0.01`) to
the first later row where `log_LHe` drops below half the `log_LHe` value at the
start age; if none, to the first row with `c_core_mass ≥ 0.98·max`; failing
that, to the last row. -/
def HeShellBurning (h : History) : M (Option (List ℕ)) :=
  match check_history_parameters h heShellPars "HeShellBurning" with
  | .error e => .error e
  | .ok _ =>
    let lhe := col h "log_LHe"
    let c := col h "c_core_mass"
    let age := col h "age"
    if allRow h.n (fun i => decide (lhe i < 1)) then .ok none
    else if allRow h.n (fun i => decide (c i < 1/100)) then .ok none
    else
      match first? ((idxWhere h.n (fun i => decide (1/100 ≤ c i))).map age) with
      | .error e => .error e
      | .ok a1 =>
        match first? ((idxWhere h.n (fun i => decide (age i = a1))).map lhe) with
        | .error e => .error e
        | .ok lheB =>
          let ends := (idxWhere h.n
            (fun i => decide (a1 < age i) && decide (lhe i < lheB / 2))).map age
          match (if !ends.isEmpty then first? ends
                else
                  match nmax? ((List.range h.n).map c) with
                  | .error _ => last? ((List.range h.n).map age)
                  | .ok cmax =>
                    match first? ((idxWhere h.n
                        (fun i => decide (98/100 * cmax ≤ c i))).map age) with
                    | .ok a => Except.ok a
                    | .error _ => last? ((List.range h.n).map age) : M ℚ) with
          | .error e => .error e
          | .ok a2 =>
            .ok (some (idxWhere h.n (fun i => decide (a1 ≤ age i) && decide (age i ≤ a2))))

/-- Model of `avg_(data, pname)` restricted to the rows of a selection:
`np.average(data[pname], weights=10 ** data['log_dt'])`.  The weights make the
value genuinely real; the field lookups (first `pname`, then `log_dt`) are the
fallible part and happen before any arithmetic. -/
noncomputable def avg_ (h : History) (rows : List ℕ) (pname : String) : M ℝ :=
  match getCol h pname with
  | .error e => .error e
  | .ok v =>
    match getCol h "log_dt" with
    | .error e => .error e
    | .ok w =>
      .ok ((rows.map fun i => ((v i : ℝ) * (10:ℝ) ^ ((w i : ℚ) : ℝ))).sum /
           (rows.map fun i => (10:ℝ) ^ ((w i : ℚ) : ℝ)).sum)

open Classical in
/-- Model of `sdA(data)`: needs a He-core-burning age window; inside it, the
time-weighted average `10^⟨log_Teff⟩` must lie in `[15000, 20000)`, and the
selection keeps the rows of the open window whose own `10^log_Teff` lies in
that band. -/
noncomputable def sdA (heIgF : ℚ → ℚ) (h : History) : M (Option (List ℕ)) :=
  match check_history_parameters h sdPars "sdA" with
  | .error e => .error e
  | .ok _ =>
    match HeCoreBurningAges heIgF h with
    | .error e => .error e
    | .ok none => .ok none
    | .ok (some (a1, a2)) =>
      let age := col h "age"
      let teff := col h "log_Teff"
      match avg_ h (idxWhere h.n (fun i => decide (a1 < age i) && decide (age i < a2))) "log_Teff" with
      | .error e => .error e
      | .ok m =>
        if (10:ℝ) ^ m < 15000 ∨ 20000 ≤ (10:ℝ) ^ m then .ok none
        else
          .ok (some (idxWhere h.n (fun i =>
            decide (a1 < age i) && decide (age i < a2) &&
            decide ((15000:ℝ) ≤ (10:ℝ) ^ ((teff i : ℚ) : ℝ)) &&
            decide ((10:ℝ) ^ ((teff i : ℚ) : ℝ) < 20000))))

open Classical in
/-- Model of `sdB(data)`: as `sdA` with the band `[20000, 40000)`. -/
noncomputable def sdB (heIgF : ℚ → ℚ) (h : History) : M (Option (List ℕ)) :=
  match check_history_parameters h sdPars "sdB" with
  | .error e => .error e
  | .ok _ =>
    match HeCoreBurningAges heIgF h with
    | .error e => .error e
    | .ok none => .ok none
    | .ok (some (a1, a2)) =>
      let age := col h "age"
      let teff := col h "log_Teff"
      match avg_ h (idxWhere h.n (fun i => decide (a1 < age i) && decide (age i < a2))) "log_Teff" with
      | .error e => .error e
      | .ok m =>
        if (10:ℝ) ^ m < 20000 ∨ 40000 ≤ (10:ℝ) ^ m then .ok none
        else
          .ok (some (idxWhere h.n (fun i =>
            decide (a1 < age i) && decide (age i < a2) &&
            decide ((20000:ℝ) ≤ (10:ℝ) ^ ((teff i : ℚ) : ℝ)) &&
            decide ((10:ℝ) ^ ((teff i : ℚ) : ℝ) < 40000))))

open Classical in
/-- Model of `sdO(data)`: as `sdA` with the band `[40000, ∞)`. -/
noncomputable def sdO (heIgF : ℚ → ℚ) (h : History) : M (Option (List ℕ)) :=
  match check_history_parameters h sdPars "sdO" with
  | .error e => .error e
  | .ok _ =>
    match HeCoreBurningAges heIgF h with
    | .error e => .error e
    | .ok none => .ok none
    | .ok (some (a1, a2)) =>
      let age := col h "age"
      let teff := col h "log_Teff"
      match avg_ h (idxWhere h.n (fun i => decide (a1 < age i) && decide (age i < a2))) "log_Teff" with
      | .error e => .error e
      | .ok m =>
        if (10:ℝ) ^ m < 40000 then .ok none
        else
          .ok (some (idxWhere h.n (fun i =>
            decide (a1 < age i) && decide (age i < a2) &&
            decide ((40000:ℝ) ≤ (10:ℝ) ^ ((teff i : ℚ) : ℝ)))))

/-- Model of `He_WD(data)`: requires `max log_g ≥ 7`, `max c_core_mass ≤ 0.01` and
`max log_LHe ≤ 1`; the start age is the first row where
`(log_Teff < 4 and log_g > 7) or log_g ≥ 7.5`, and the selection is all rows
with age strictly greater than that start age. -/
def He_WD (h : History) : M (Option (List ℕ)) :=
  match check_history_parameters h heWdPars "He_WD" with
  | .error e => .error e
  | .ok _ =>
    let lhe := col h "log_LHe"
    let c := col h "c_core_mass"
    let teff := col h "log_Teff"
    let g := col h "log_g"
    let age := col h "age"
    match nmax? ((List.range h.n).map g) with
    | .error e => .error e
    | .ok gmax =>
      if gmax < 7 then .ok none
      else
        match nmax? ((List.range h.n).map c) with
        | .error e => .error e
        | .ok cmax =>
          if 1/100 < cmax then .ok none
          else
            match nmax? ((List.range h.n).map lhe) with
            | .error e => .error e
            | .ok lheMax =>
              if 1 < lheMax then .ok none
              else
                match (idxWhere h.n (fun i =>
                    (decide (teff i < 4) && decide (7 < g i)) || decide (15/2 ≤ g i))).map age with
                | [] => .ok none
                | a1 :: _ => .ok (some (idxWhere h.n (fun i => decide (a1 < age i))))

/-- Model of `ML(data)`: the first mass-loss window, from the first row with
`lg_mstar_dot_1 ≥ -10` to the first strictly later age at which the rate is
again `< -10` (the last row's age if none). -/
def ML (h : History) : M (Option (List ℕ)) :=
  match check_history_parameters h mlPars "ML" with
  | .error e => .error e
  | .ok _ =>
    let md := col h "lg_mstar_dot_1"
    let age := col h "age"
    if allRow h.n (fun i => decide (md i < -10)) then .ok none
    else
      match first? ((idxWhere h.n (fun i => decide (-10 ≤ md i))).map age) with
      | .error e => .error e
      | .ok a1 =>
        match (match first? ((idxWhere h.n
                (fun i => decide (a1 < age i) && decide (md i < -10))).map age) with
              | .ok a => Except.ok a
              | .error _ => last? ((List.range h.n).map age) : M ℚ) with
        | .error e => .error e
        | .ok a2 =>
          .ok (some (idxWhere h.n (fun i => decide (a1 ≤ age i) && decide (age i ≤ a2))))

/-- Model of `ML(data, return_age=True)`: the `(a1, a2)` age pair of the first
mass-loss window. -/
def MLAges (h : History) : M (Option (ℚ × ℚ)) :=
  match check_history_parameters h mlPars "ML" with
  | .error e => .error e
  | .ok _ =>
    let md := col h "lg_mstar_dot_1"
    let age := col h "age"
    if allRow h.n (fun i => decide (md i < -10)) then .ok none
    else
      match first? ((idxWhere h.n (fun i => decide (-10 ≤ md i))).map age) with
      | .error e => .error e
      | .ok a1 =>
        match (match first? ((idxWhere h.n
                (fun i => decide (a1 < age i) && decide (md i < -10))).map age) with
              | .ok a => Except.ok a
              | .error _ => last? ((List.range h.n).map age) : M ℚ) with
        | .error e => .error e
        | .ok a2 => .ok (some (a1, a2))

/-- Model of `MLstart(data)`: the first row whose age is at least the start age of the
first mass-loss window. -/
def MLstart (h : History) : M (Option (List ℕ)) :=
  match check_history_parameters h mlPars "MLstart" with
  | .error e => .error e
  | .ok _ =>
    let age := col h "age"
    match MLAges h with
    | .error e => .error e
    | .ok none => .ok none
    | .ok (some (a1, _a2)) =>
      match first? (idxWhere h.n (fun i => decide (a1 ≤ age i))) with
      | .error e => .error e
      | .ok i => .ok (some [i])

/-- Model of `MLend(data)`: the last row whose age is at most the end age of the first
mass-loss window. -/
def MLend (h : History) : M (Option (List ℕ)) :=
  match check_history_parameters h mlPars "MLend" with
  | .error e => .error e
  | .ok _ =>
    let age := col h "age"
    match MLAges h with
    | .error e => .error e
    | .ok none => .ok none
    | .ok (some (_a1, a2)) =>
      match last? (idxWhere h.n (fun i => decide (age i ≤ a2))) with
      | .error e => .error e
      | .ok j => .ok (some [j])

/-- Model of `CE(data)`: the rows where `CE_phase == 1`; Absent when `CE_phase` is zero
everywhere.  The source performs no required-parameter validation here, so a
missing `CE_phase` column surfaces as a raw field-lookup failure. -/
def CE (h : History) : M (Option (List ℕ)) :=
  match getCol h "CE_phase" with
  | .error e => .error e
  | .ok ce =>
    if allRow h.n (fun i => decide (ce i = 0)) then .ok none
    else .ok (some (idxWhere h.n (fun i => decide (ce i = 1))))

/-- Model of `CEstart(data)`: the first row of the `CE` selection. -/
def CEstart (h : History) : M (Option (List ℕ)) :=
  match CE h with
  | .error e => .error e
  | .ok none => .ok none
  | .ok (some s) =>
    match first? s with
    | .error e => .error e
    | .ok i => .ok (some [i])

/-- Model of `CEend(data)`: the last row of the `CE` selection. -/
def CEend (h : History) : M (Option (List ℕ)) :=
  match CE h with
  | .error e => .error e
  | .ok none => .ok none
  | .ok (some s) =>
    match last? s with
    | .error e => .error e
    | .ok i => .ok (some [i])

/-- Build a column function from a list of values (0 beyond the end; the
detectors only read indices below the row count). -/
def listCol (l : List ℚ) : ℕ → ℚ :=
  fun i => l.getD i 0

/-- A sample ignition-boundary curve (constantly 0), standing in for the
interpolated `HeIgF` in concrete instantiations. -/
def igZero : ℚ → ℚ :=
  fun _ => 0

/-- A one-row history with no columns at all. -/
def hNoCols : History :=
  ⟨1, []⟩

/-- One-row history with all `RGB` columns and `center_h1 = 1/2` (so the
central hydrogen fraction never drops below `1e-12`). -/
def hC3 : History :=
  ⟨1, [("log_L", listCol [1]), ("center_h1", listCol [1/2]),
       ("center_he4", listCol [1/2]), ("effective_T", listCol [5000]),
       ("age", listCol [0])]⟩

/-- Two rows with a tied age column: the `MS` start condition first holds at
row 1, but both rows share the age value 3. -/
def hC4 : History :=
  ⟨2, [("log_L", listCol [1, 1]), ("log_LH", listCol [0, 1]),
       ("center_h1", listCol [1/2, 1/2]), ("age", listCol [3, 3])]⟩

/-- One-row history with all MS columns where the code's start test fires
(`log_LH / log_L = (-2)/(-1) = 2 > 0.999`) although the hydrogen-burning
luminosity is only a tenth of the total (`10^-2 = 0.1 × 10^-1`). -/
def hC4b : History :=
  ⟨1, [("log_L", listCol [-1]), ("log_LH", listCol [-2]),
       ("center_h1", listCol [1/2]), ("age", listCol [0])]⟩

/-- Three rows with strict ages; `MS` starts at row 1 and `center_h1` never
depletes. -/
def hC4w : History :=
  ⟨3, [("log_L", listCol [1, 1, 1]), ("log_LH", listCol [0, 1, 1]),
       ("center_h1", listCol [1/2, 1/2, 1/2]), ("age", listCol [0, 1, 2])]⟩

/-- One row with all subdwarf columns and `log_LHe = 0`, so He core burning is
absent. -/
def hC5 : History :=
  ⟨1, [("log_center_T", listCol [0]), ("log_center_Rho", listCol [0]),
       ("log_LHe", listCol [0]), ("c_core_mass", listCol [0]),
       ("log_Teff", listCol [4]), ("age", listCol [0])]⟩

/-- Three rows: shell burning starts at row 0 with `log_LHe = 2`; row 1 has
`log_LHe = 3/2` (luminosity already below half of `10^2`), row 2 has
`log_LHe = 4/5` (below half of the log value 2). -/
def hC6 : History :=
  ⟨3, [("log_LHe", listCol [2, 3/2, 4/5]), ("c_core_mass", listCol [1/50, 1/50, 1/50]),
       ("age", listCol [0, 1, 2])]⟩

/-- Three rows: shell burning starts at row 0 with `log_LHe = 2` and the log
value halves already at row 1. -/
def hC6w : History :=
  ⟨3, [("log_LHe", listCol [2, 1/2, 1/2]), ("c_core_mass", listCol [1/50, 1/50, 1/50]),
       ("age", listCol [0, 1, 2])]⟩

/-- Two rows on the white-dwarf cooling track from row 0 on
(`log_g = 38/5 ≥ 7.5` everywhere, no He burning). -/
def hC7 : History :=
  ⟨2, [("log_LHe", listCol [0, 0]), ("c_core_mass", listCol [0, 0]),
       ("log_Teff", listCol [9/2, 9/2]), ("log_g", listCol [38/5, 38/5]),
       ("age", listCol [0, 1])]⟩

/-- Five rows: the mass-loss rate first reaches `-10` at row 1 and first drops
back below `-10` at row 3. -/
def hC8 : History :=
  ⟨5, [("lg_mstar_dot_1", listCol [-11, -9, -9, -11, -9]),
       ("age", listCol [0, 1, 2, 3, 4])]⟩

/-- Three rows igniting He at row 0 whose CO core mass exceeds `0.01` only at
row 1, so the He-core-burning row filter keeps rows 0 and 2 but not row 1. -/
def hC9 : History :=
  ⟨3, [("log_center_T", listCol [1, 1, 1]), ("log_center_Rho", listCol [0, 0, 0]),
       ("log_LHe", listCol [2, 2, 2]), ("c_core_mass", listCol [0, 1/50, 0]),
       ("age", listCol [0, 1, 2])]⟩

/-- A minimal one-row history with an age column. -/
def hC9w : History :=
  ⟨1, [("age", listCol [0])]⟩

/-- One row with all subdwarf columns, no `log_dt`, and He core burning
absent. -/
def hC10 : History :=
  ⟨1, [("log_center_T", listCol [0]), ("log_center_Rho", listCol [0]),
       ("log_LHe", listCol [0]), ("c_core_mass", listCol [0]),
       ("log_Teff", listCol [5]), ("age", listCol [0])]⟩

/-- Two rows with all subdwarf columns, no `log_dt`, and a He-core-burning age
window `(0, 1)`. -/
def hC10w : History :=
  ⟨2, [("log_center_T", listCol [1, 1]), ("log_center_Rho", listCol [0, 0]),
       ("log_LHe", listCol [2, 2]), ("c_core_mass", listCol [1/50, 0]),
       ("log_Teff", listCol [4, 4]), ("age", listCol [0, 1])]⟩

/-- The age column is non-decreasing on the first `n` rows (the data-model
invariant of the spec). -/
def AgeNonDec (n : ℕ) (age : ℕ → ℚ) : Prop :=
  ∀ i j, i ≤ j → j < n → age i ≤ age j

/-- The age column is strictly increasing on the first `n` rows. -/
def AgeStrictInc (n : ℕ) (age : ℕ → ℚ) : Prop :=
  ∀ i j, i < j → j < n → age i < age j

/-- A selection is contiguous: every index lying between two selected indices
is itself selected. -/
def Contiguous (l : List ℕ) : Prop :=
  ∀ i ∈ l, ∀ k ∈ l, ∀ j : ℕ, i ≤ j → j ≤ k → j ∈ l

/-- Well-formedness of a selection over an `n`-row history: all indices are
valid, the indices are strictly increasing, and the age at the first selected
row is at most the age at the last selected row. -/
def SelWF (n : ℕ) (age : ℕ → ℚ) (l : List ℕ) : Prop :=
  (∀ i ∈ l, i < n) ∧ l.Pairwise (· < ·) ∧
    (∀ a ∈ l.head?, ∀ b ∈ l.getLast?, age a ≤ age b)

/-- The claim's reading of the `HeShellBurning` end condition: the He
luminosity `10^log_LHe` drops below half of its value at the start row. -/
def heLumHalfDrop (lStart lhe : ℚ) : Prop :=
  (10:ℝ) ^ ((lhe : ℚ) : ℝ) < 1/2 * (10:ℝ) ^ ((lStart : ℚ) : ℝ)

/-- The claim's reading of the `MS` start condition: the hydrogen-burning
luminosity `10^log_LH` exceeds `0.999` of the total luminosity `10^log_L`. -/
def msStartFrac (logLH logL : ℚ) : Prop :=
  999/1000 * (10:ℝ) ^ ((logL : ℚ) : ℝ) < (10:ℝ) ^ ((logLH : ℚ) : ℝ)

/-- Whether a detector result is the descriptive missing-parameters error. -/
def isMissingParamsErr {α : Type} : M α → Bool
  | .error (.missingParams _ _ _) => true
  | _ => false


/-- C1: the four spec examples evaluated on the code.  The code contradicts its
own docstring (`max__RL -> max(RL)`, `max__Teff__ML -> max(effective_T[ML])`):
`"Teff"` and `"duration__HeCoreBurning"` decompose as the claim states, but
`"max__RL"` yields `("max", "RL", avg)` — the function name is taken as the
column and `RL` as the phase — and `"max__Teff__ML"` raises a `KeyError` on
looking up `"ML"` in the function table, instead of the claimed
`(Teff, ML, max)`. -/
theorem C1_code_eval :
    decompose_parameter "Teff" = .ok (some "Teff", none, some AggFunc.avg) ∧
    decompose_parameter "max__RL" = .ok (some "max", some "RL", some AggFunc.avg) ∧
    decompose_parameter "duration__HeCoreBurning" =
      .ok (some "duration", some "HeCoreBurning", some AggFunc.avg) ∧
    decompose_parameter "max__Teff__ML" = .error (.keyError "ML") := by
  exact ⟨rfl, rfl, rfl, rfl⟩

theorem col_eq {h : History} {name : String} {f : ℕ → ℚ}
    (hf : List.lookup name h.cols = some f) : col h name = f := by
  simp [col, hf]

theorem hasCol_of_lookup {h : History} {name : String} {f : ℕ → ℚ}
    (hf : List.lookup name h.cols = some f) : hasCol h name = true := by
  simp [hasCol, hf]

theorem check_ok {h : History} {pars : List String} {phase : String}
    (hc : ∀ p ∈ pars, hasCol h p = true) :
    check_history_parameters h pars phase = .ok () := by
  have : pars.filter (fun p => !hasCol h p) = [] :=
    List.filter_eq_nil_iff.mpr (fun p hp => by simp [hc p hp])
  simp [check_history_parameters, this]

theorem check_missing {h : History} {pars : List String} {phase : String}
    (hne : pars.filter (fun p => !hasCol h p) ≠ []) :
    check_history_parameters h pars phase =
      .error (.missingParams phase pars (pars.filter (fun p => !hasCol h p))) := by
  simp only [check_history_parameters]
  rw [if_neg (by simpa [List.isEmpty_iff] using hne)]

theorem anyRow_true_iff (n : ℕ) (p : ℕ → Bool) :
    anyRow n p = true ↔ ∃ k, k < n ∧ p k = true := by
  simp [anyRow, List.any_eq_true, List.mem_range]

theorem anyRow_false_iff (n : ℕ) (p : ℕ → Bool) :
    anyRow n p = false ↔ ∀ k, k < n → p k = false := by
  rw [← Bool.not_eq_true, anyRow_true_iff]
  simp

theorem allRow_true_iff (n : ℕ) (p : ℕ → Bool) :
    allRow n p = true ↔ ∀ k, k < n → p k = true := by
  simp [allRow, List.all_eq_true, List.mem_range]

theorem allRow_false_iff (n : ℕ) (p : ℕ → Bool) :
    allRow n p = false ↔ ∃ k, k < n ∧ p k = false := by
  rw [← Bool.not_eq_true, allRow_true_iff]
  push_neg
  simp only [Bool.not_eq_true]

theorem idxWhere_nil {n : ℕ} {p : ℕ → Bool} (hall : ∀ k, k < n → p k = false) :
    idxWhere n p = [] :=
  List.filter_eq_nil_iff.mpr (fun k hk => by simp [hall k (List.mem_range.mp hk)])

theorem idxWhere_congr {n : ℕ} {p q : ℕ → Bool} (hpq : ∀ k, k < n → p k = q k) :
    idxWhere n p = idxWhere n q :=
  List.filter_congr (fun k hk => hpq k (List.mem_range.mp hk))

theorem idxWhere_eq_cons {n : ℕ} {p : ℕ → Bool} {i : ℕ} (hi : i < n)
    (hpi : p i = true) (hmin : ∀ k, k < i → p k = false) :
    ∃ l, idxWhere n p = i :: l ∧ ∀ x ∈ l, i < x := by
  have hn : n = i + (n - i) := by omega
  have hm : n - i = (n - i - 1) + 1 := by omega
  rw [idxWhere, hn, List.range_add, List.filter_append, hm, List.range_succ_eq_map]
  have h1 : (List.range i).filter p = [] :=
    List.filter_eq_nil_iff.mpr (fun k hk => by simp [hmin k (List.mem_range.mp hk)])
  rw [h1]
  simp only [List.map_cons, Nat.add_zero, List.map_map, List.nil_append]
  rw [List.filter_cons_of_pos hpi]
  refine ⟨_, rfl, ?_⟩
  intro x hx
  have hx' := List.mem_filter.mp hx |>.1
  simp only [List.mem_map, Function.comp] at hx'
  obtain ⟨k, _, hk⟩ := hx'
  omega

theorem first?_idxWhere_map {γ : Type} (g : ℕ → γ) {n : ℕ} {p : ℕ → Bool} {i : ℕ}
    (hi : i < n) (hpi : p i = true) (hmin : ∀ k, k < i → p k = false) :
    first? ((idxWhere n p).map g) = .ok (g i) := by
  obtain ⟨l, hl, -⟩ := idxWhere_eq_cons hi hpi hmin
  rw [hl]
  rfl

theorem first?_idxWhere {n : ℕ} {p : ℕ → Bool} {i : ℕ}
    (hi : i < n) (hpi : p i = true) (hmin : ∀ k, k < i → p k = false) :
    first? (idxWhere n p) = .ok i := by
  obtain ⟨l, hl, -⟩ := idxWhere_eq_cons hi hpi hmin
  rw [hl]
  rfl

theorem idxWhere_eq_concat {n : ℕ} {p : ℕ → Bool} {j : ℕ} (hj : j < n)
    (hpj : p j = true) (hmax : ∀ k, j < k → k < n → p k = false) :
    ∃ l, idxWhere n p = l ++ [j] := by
  have hn : n = (j + 1) + (n - j - 1) := by omega
  rw [idxWhere, hn, List.range_add, List.filter_append]
  have h2 : (List.map (fun x => j + 1 + x) (List.range (n - j - 1))).filter p = [] := by
    refine List.filter_eq_nil_iff.mpr (fun k hk => ?_)
    simp only [List.mem_map, List.mem_range] at hk
    obtain ⟨x, hx, rfl⟩ := hk
    have := hmax (j + 1 + x) (by omega) (by omega)
    simp [this]
  rw [h2, List.append_nil, List.range_succ, List.filter_append,
    List.filter_cons_of_pos hpj]
  exact ⟨_, rfl⟩

theorem last?_idxWhere_map {γ : Type} (g : ℕ → γ) {n : ℕ} {p : ℕ → Bool} {j : ℕ}
    (hj : j < n) (hpj : p j = true) (hmax : ∀ k, j < k → k < n → p k = false) :
    last? ((idxWhere n p).map g) = .ok (g j) := by
  obtain ⟨l, hl⟩ := idxWhere_eq_concat hj hpj hmax
  rw [hl, last?, List.map_append]
  simp only [List.map_cons, List.map_nil]
  rw [List.getLast?_concat]

theorem last?_idxWhere {n : ℕ} {p : ℕ → Bool} {j : ℕ}
    (hj : j < n) (hpj : p j = true) (hmax : ∀ k, j < k → k < n → p k = false) :
    last? (idxWhere n p) = .ok j := by
  obtain ⟨l, hl⟩ := idxWhere_eq_concat hj hpj hmax
  rw [hl, last?, List.getLast?_concat]

theorem last?_range_map {γ : Type} (g : ℕ → γ) {n : ℕ} (hn : 0 < n) :
    last? ((List.range n).map g) = .ok (g (n - 1)) := by
  have h : n = (n - 1) + 1 := by omega
  rw [h, List.range_succ, List.map_append, last?]
  simp only [List.map_cons, List.map_nil]
  rw [List.getLast?_concat]
  simp

theorem ageStrictInc_of_adj {n : ℕ} {age : ℕ → ℚ}
    (hadj : ∀ k, k < n - 1 → age k < age (k + 1)) : AgeStrictInc n age := by
  intro i j hij hj
  induction j with
  | zero => omega
  | succ m ih =>
    rcases Nat.lt_succ_iff_lt_or_eq.mp hij with hlt | heq
    · exact lt_trans (ih hlt (by omega)) (hadj m (by omega))
    · subst heq
      exact hadj i (by omega)

theorem AgeStrictInc.le_iff {n : ℕ} {age : ℕ → ℚ} (S : AgeStrictInc n age)
    {i k : ℕ} (hi : i < n) (hk : k < n) : age i ≤ age k ↔ i ≤ k := by
  constructor
  · intro hle
    by_contra hik
    push_neg at hik
    exact absurd (S k i hik hi) (not_lt.mpr hle)
  · intro hik
    rcases Nat.lt_or_ge i k with hlt | hge
    · exact (S i k hlt hk).le
    · have : i = k := le_antisymm hik hge
      simp [this]

theorem AgeStrictInc.lt_iff {n : ℕ} {age : ℕ → ℚ} (S : AgeStrictInc n age)
    {i k : ℕ} (hi : i < n) (hk : k < n) : age i < age k ↔ i < k := by
  rw [← not_le, ← not_le, not_iff_not]
  exact S.le_iff hk hi

theorem AgeStrictInc.eq_iff {n : ℕ} {age : ℕ → ℚ} (S : AgeStrictInc n age)
    {i k : ℕ} (hi : i < n) (hk : k < n) : age i = age k ↔ i = k := by
  rw [le_antisymm_iff, le_antisymm_iff, S.le_iff hi hk, S.le_iff hk hi]

theorem AgeStrictInc.nonDec {n : ℕ} {age : ℕ → ℚ} (S : AgeStrictInc n age) :
    AgeNonDec n age := by
  intro i j hij hj
  rcases Nat.lt_or_ge i j with hlt | hge
  · exact (S i j hlt hj).le
  · have : i = j := le_antisymm hij hge
    simp [this]

theorem sorted_head_le_getLast {l : List ℕ} (hp : l.Pairwise (· < ·))
    {a b : ℕ} (ha : a ∈ l.head?) (hb : b ∈ l.getLast?) : a ≤ b := by
  cases l with
  | nil => simp at ha
  | cons x xs =>
    simp only [List.head?_cons, Option.mem_def, Option.some.injEq] at ha
    subst ha
    have hbmem : b ∈ x :: xs := by
      have := List.getLast?_eq_getLast (x :: xs) (by simp)
      rw [this] at hb
      simp only [Option.mem_def, Option.some.injEq] at hb
      subst hb
      exact List.getLast_mem _
    rcases List.mem_cons.mp hbmem with rfl | hbx
    · exact le_refl _
    · exact (List.pairwise_cons.mp hp).1 b hbx |>.le

theorem mem_of_mem_getLast? {α : Type} {l : List α} {b : α}
    (hb : b ∈ l.getLast?) : b ∈ l := by
  cases l with
  | nil => simp at hb
  | cons x xs =>
    rw [List.getLast?_eq_getLast (x :: xs) (by simp)] at hb
    simp only [Option.mem_def, Option.some.injEq] at hb
    subst hb
    exact List.getLast_mem _

theorem mem_idxWhere {n : ℕ} {p : ℕ → Bool} {i : ℕ} :
    i ∈ idxWhere n p ↔ i < n ∧ p i = true := by
  simp [idxWhere, List.mem_filter, List.mem_range]

theorem selWF_idxWhere {n : ℕ} {age : ℕ → ℚ} (mono : AgeNonDec n age)
    (p : ℕ → Bool) : SelWF n age (idxWhere n p) := by
  refine ⟨fun i hi => (mem_idxWhere.mp hi).1, (List.pairwise_lt_range n).filter p, ?_⟩
  intro a ha b hb
  have hsorted : (idxWhere n p).Pairwise (· < ·) := (List.pairwise_lt_range n).filter p
  have hab : a ≤ b := sorted_head_le_getLast hsorted ha hb
  have hbmem : b ∈ idxWhere n p := mem_of_mem_getLast? hb
  exact mono a b hab (mem_idxWhere.mp hbmem).1

theorem selWF_single {n : ℕ} {age : ℕ → ℚ} {i : ℕ} (hi : i < n) :
    SelWF n age [i] := by
  refine ⟨by simpa using hi, by simp, ?_⟩
  intro a ha b hb
  simp only [List.head?_cons, Option.mem_def, Option.some.injEq] at ha
  simp only [List.getLast?_singleton, Option.mem_def, Option.some.injEq] at hb
  subst ha
  subst hb
  exact le_refl _

theorem contiguous_single (x : ℕ) : Contiguous [x] := by
  intro i hi k hk j hij hjk
  simp only [List.mem_singleton] at hi hk ⊢
  omega

theorem contiguous_idxWhere {n : ℕ} {p : ℕ → Bool}
    (hmid : ∀ i j k, i ≤ j → j ≤ k → k < n → p i = true → p k = true → p j = true) :
    Contiguous (idxWhere n p) := by
  intro i hi k hk j hij hjk
  have hi' := mem_idxWhere.mp hi
  have hk' := mem_idxWhere.mp hk
  exact mem_idxWhere.mpr ⟨lt_of_le_of_lt hjk hk'.1, hmid i j k hij hjk hk'.1 hi'.2 hk'.2⟩

/-- C3: on a history with all `RGB` columns whose central hydrogen fraction
(`1/2` on every row) never drops below `1e-12`, the `RGB` detector does not
return the Absent sentinel: it raises an `IndexError` (indexing the empty
selection `data['age'][center_h1 < 1e-12]`), because the absent-guard of the
source compares against `1e12` instead of `1e-12`, contradicting the
function's own docstring and inline comment.  The second conjunct records that
the claim's hypothesis holds on this input: no row has `center_h1 < 1e-12`. -/
theorem C3_code_eval :
    RGB hC3 = .error .indexError ∧
    allRow hC3.n (fun i => !decide (col hC3 "center_h1" i < 1 / 10 ^ 12)) = true := by
  decide

/-- C2 counterexample: `CE` performs no required-parameter validation, so on a
history without the `CE_phase` column it fails with a raw field-lookup
(`KeyError`) failure — not with the descriptive missing-parameters error the
claim asserts — and so do `CEstart` and `CEend`. -/
theorem C2_counterexample :
    CE hNoCols = .error (.keyError "CE_phase") ∧
    isMissingParamsErr (CE hNoCols) = false ∧
    CEstart hNoCols = .error (.keyError "CE_phase") ∧
    CEend hNoCols = .error (.keyError "CE_phase") ∧
    hasCol hNoCols "CE_phase" = false := by
  decide

/-- C2 (amended): every canonical detector that validates its required columns
(`MS`, `RGB`, `HeIgnition`, `HeCoreBurning`, `HeShellBurning`, `sdA`, `sdB`,
`sdO`, `He_WD`, `ML`, `MLstart`, `MLend`) fails immediately with the
descriptive missing-parameters error naming the phase, the required list and
the missing columns whenever some required column is absent; `CE`, `CEstart`
and `CEend` perform no such validation and instead fail with a raw `CE_phase`
lookup failure when that column is absent (`init` and `final` require no
columns). -/
theorem C2_amended (heIgF : ℚ → ℚ) (h : History) :
    (msPars.filter (fun p => !hasCol h p) ≠ [] →
      MS h = .error (.missingParams "MS" msPars (msPars.filter (fun p => !hasCol h p)))) ∧
    (rgbPars.filter (fun p => !hasCol h p) ≠ [] →
      RGB h = .error (.missingParams "RGB" rgbPars (rgbPars.filter (fun p => !hasCol h p)))) ∧
    (heIgnPars.filter (fun p => !hasCol h p) ≠ [] →
      HeIgnition h = .error (.missingParams "HeIgnition" heIgnPars
        (heIgnPars.filter (fun p => !hasCol h p)))) ∧
    (heCorePars.filter (fun p => !hasCol h p) ≠ [] →
      HeCoreBurning heIgF h = .error (.missingParams "HeCoreBurning" heCorePars
        (heCorePars.filter (fun p => !hasCol h p)))) ∧
    (heShellPars.filter (fun p => !hasCol h p) ≠ [] →
      HeShellBurning h = .error (.missingParams "HeShellBurning" heShellPars
        (heShellPars.filter (fun p => !hasCol h p)))) ∧
    (sdPars.filter (fun p => !hasCol h p) ≠ [] →
      sdA heIgF h = .error (.missingParams "sdA" sdPars
        (sdPars.filter (fun p => !hasCol h p))) ∧
      sdB heIgF h = .error (.missingParams "sdB" sdPars
        (sdPars.filter (fun p => !hasCol h p))) ∧
      sdO heIgF h = .error (.missingParams "sdO" sdPars
        (sdPars.filter (fun p => !hasCol h p)))) ∧
    (heWdPars.filter (fun p => !hasCol h p) ≠ [] →
      He_WD h = .error (.missingParams "He_WD" heWdPars
        (heWdPars.filter (fun p => !hasCol h p)))) ∧
    (mlPars.filter (fun p => !hasCol h p) ≠ [] →
      ML h = .error (.missingParams "ML" mlPars (mlPars.filter (fun p => !hasCol h p))) ∧
      MLstart h = .error (.missingParams "MLstart" mlPars
        (mlPars.filter (fun p => !hasCol h p))) ∧
      MLend h = .error (.missingParams "MLend" mlPars
        (mlPars.filter (fun p => !hasCol h p)))) ∧
    (hasCol h "CE_phase" = false →
      CE h = .error (.keyError "CE_phase") ∧
      CEstart h = .error (.keyError "CE_phase") ∧
      CEend h = .error (.keyError "CE_phase")) := by
  have hCE : hasCol h "CE_phase" = false →
      CE h = .error (.keyError "CE_phase") := by
    intro hce
    have hlk : List.lookup "CE_phase" h.cols = none := by
      cases hlk : List.lookup "CE_phase" h.cols with
      | none => rfl
      | some f => rw [hasCol_of_lookup hlk] at hce; cases hce
    unfold CE getCol
    rw [hlk]
  refine ⟨?_, ?_, ?_, ?_, ?_, ?_, ?_, ?_, ?_⟩
  · intro hne
    unfold MS
    rw [check_missing hne]
  · intro hne
    unfold RGB
    rw [check_missing hne]
  · intro hne
    unfold HeIgnition
    rw [check_missing hne]
  · intro hne
    unfold HeCoreBurning
    rw [check_missing hne]
  · intro hne
    unfold HeShellBurning
    rw [check_missing hne]
  · intro hne
    refine ⟨?_, ?_, ?_⟩
    · unfold sdA
      rw [check_missing hne]
    · unfold sdB
      rw [check_missing hne]
    · unfold sdO
      rw [check_missing hne]
  · intro hne
    unfold He_WD
    rw [check_missing hne]
  · intro hne
    refine ⟨?_, ?_, ?_⟩
    · unfold ML
      rw [check_missing hne]
    · unfold MLstart
      rw [check_missing hne]
    · unfold MLend
      rw [check_missing hne]
  · intro hce
    have h1 := hCE hce
    refine ⟨h1, ?_, ?_⟩
    · unfold CEstart
      rw [h1]
    · unfold CEend
      rw [h1]

/-- C2 witness: on the one-row history with no columns at all, every
validating detector reports its full required list as missing, and the
`CE` family fails with the raw `CE_phase` lookup error. -/
theorem C2_witness :
    MS hNoCols = .error (.missingParams "MS" msPars
      (msPars.filter (fun p => !hasCol hNoCols p))) ∧
    RGB hNoCols = .error (.missingParams "RGB" rgbPars
      (rgbPars.filter (fun p => !hasCol hNoCols p))) ∧
    HeIgnition hNoCols = .error (.missingParams "HeIgnition" heIgnPars
      (heIgnPars.filter (fun p => !hasCol hNoCols p))) ∧
    HeCoreBurning igZero hNoCols = .error (.missingParams "HeCoreBurning" heCorePars
      (heCorePars.filter (fun p => !hasCol hNoCols p))) ∧
    HeShellBurning hNoCols = .error (.missingParams "HeShellBurning" heShellPars
      (heShellPars.filter (fun p => !hasCol hNoCols p))) ∧
    sdA igZero hNoCols = .error (.missingParams "sdA" sdPars
      (sdPars.filter (fun p => !hasCol hNoCols p))) ∧
    He_WD hNoCols = .error (.missingParams "He_WD" heWdPars
      (heWdPars.filter (fun p => !hasCol hNoCols p))) ∧
    ML hNoCols = .error (.missingParams "ML" mlPars
      (mlPars.filter (fun p => !hasCol hNoCols p))) ∧
    MLstart hNoCols = .error (.missingParams "MLstart" mlPars
      (mlPars.filter (fun p => !hasCol hNoCols p))) ∧
    CEstart hNoCols = .error (.keyError "CE_phase") := by
  have H := C2_amended igZero hNoCols
  exact ⟨H.1 (by decide), H.2.1 (by decide), H.2.2.1 (by decide), H.2.2.2.1 (by decide),
    H.2.2.2.2.1 (by decide), (H.2.2.2.2.2.1 (by decide)).1, H.2.2.2.2.2.2.1 (by decide),
    (H.2.2.2.2.2.2.2.1 (by decide)).1, (H.2.2.2.2.2.2.2.1 (by decide)).2.1,
    (H.2.2.2.2.2.2.2.2 (by decide)).2.1⟩

/-- If the plain `HeCoreBurning` detector returns Absent, so does its
`return_age=True` variant: the two share the same guards, and Absent is
decided before the end-age indexing. -/
theorem heCoreAges_none {heIgF : ℚ → ℚ} {h : History}
    (hc : ∀ p ∈ heCorePars, hasCol h p = true)
    (habs : HeCoreBurning heIgF h = .ok none) :
    HeCoreBurningAges heIgF h = .ok none := by
  have hchk : check_history_parameters h heCorePars "HeCoreBurning" = .ok () := check_ok hc
  unfold HeCoreBurning at habs
  unfold HeCoreBurningAges
  rw [hchk] at habs ⊢
  by_cases hg : (allRow h.n (fun i => decide (col h "log_LHe" i < 1)) ||
      allRow h.n (fun i => decide (col h "log_center_T" i < heIgF (col h "log_center_Rho" i)))) = true
  · rw [if_pos hg] at habs ⊢
  · rw [if_neg hg] at habs ⊢
    cases hfst : first? ((idxWhere h.n
        (fun i => decide (heIgF (col h "log_center_Rho" i) ≤ col h "log_center_T" i))).map
          (col h "age")) with
    | error e =>
      rw [hfst] at habs
      simp at habs
    | ok a1 =>
      rw [hfst] at habs
      simp only at habs ⊢
      by_cases hg2 : (allRow h.n (fun i => decide (col h "c_core_mass" i < 1/100))) = true
      · rw [if_pos hg2]
      · rw [if_neg hg2] at habs
        simp at habs

/-- C5: whenever `HeCoreBurning` returns the Absent sentinel on a history
containing all columns required by the subdwarf detectors, `sdA`, `sdB` and
`sdO` each return Absent on that same history. -/
theorem C5_sd_absent (heIgF : ℚ → ℚ) (h : History)
    (hc : ∀ p ∈ sdPars, hasCol h p = true)
    (habs : HeCoreBurning heIgF h = .ok none) :
    sdA heIgF h = .ok none ∧ sdB heIgF h = .ok none ∧ sdO heIgF h = .ok none := by
  have hc' : ∀ p ∈ heCorePars, hasCol h p = true := by
    intro p hp
    fin_cases hp <;> exact hc _ (by decide)
  have hages := heCoreAges_none hc' habs
  refine ⟨?_, ?_, ?_⟩
  · unfold sdA
    rw [check_ok hc, hages]
  · unfold sdB
    rw [check_ok hc, hages]
  · unfold sdO
    rw [check_ok hc, hages]

/-- C5 witness: a concrete one-row history with all subdwarf columns on which
He core burning is absent (`log_LHe = 0 < 1` everywhere). -/
theorem C5_witness :
    sdA igZero hC5 = .ok none ∧ sdB igZero hC5 = .ok none ∧ sdO igZero hC5 = .ok none :=
  C5_sd_absent igZero hC5 (by decide) (by decide)

/-- C10 counterexample: a history containing every column of the validated
subdwarf required lists but no `log_dt` on which `sdA`, `sdB` and `sdO` all
return a result (the Absent sentinel) rather than failing: He core burning is
absent, so the time-weighted average is never computed and the missing
`log_dt` is never read. -/
theorem C10_counterexample :
    sdA igZero hC10 = .ok none ∧ sdB igZero hC10 = .ok none ∧ sdO igZero hC10 = .ok none ∧
    sdPars.all (hasCol hC10) = true ∧ hasCol hC10 "log_dt" = false := by
  decide

/-- C10 (amended): on a history containing all validated subdwarf required
columns but lacking `log_dt`, whenever the He-core-burning age window exists
(so the time-weighted average of `log_Teff` is actually computed), `sdA`,
`sdB` and `sdO` fail with the raw `log_dt` column-lookup failure — not with a
result and not with the descriptive missing-parameters error — because
`log_dt` is read by the `avg` aggregate yet is not in their validated required
columns. -/
theorem C10_amended (heIgF : ℚ → ℚ) (h : History) (a1 a2 : ℚ)
    (hc : ∀ p ∈ sdPars, hasCol h p = true)
    (hdt : hasCol h "log_dt" = false)
    (hages : HeCoreBurningAges heIgF h = .ok (some (a1, a2))) :
    sdA heIgF h = .error (.keyError "log_dt") ∧
    sdB heIgF h = .error (.keyError "log_dt") ∧
    sdO heIgF h = .error (.keyError "log_dt") := by
  obtain ⟨ft, hft⟩ : ∃ ft, List.lookup "log_Teff" h.cols = some ft := by
    have := hc "log_Teff" (by decide)
    simpa [hasCol, Option.isSome_iff_exists] using this
  have hdtn : List.lookup "log_dt" h.cols = none := by
    cases hlk : List.lookup "log_dt" h.cols with
    | none => rfl
    | some f => rw [hasCol_of_lookup hlk] at hdt; cases hdt
  have havg : ∀ rows, avg_ h rows "log_Teff" = .error (.keyError "log_dt") := by
    intro rows
    simp [avg_, getCol, hft, hdtn]
  refine ⟨?_, ?_, ?_⟩
  · unfold sdA
    rw [check_ok hc, hages]
    simp only
    rw [havg]
  · unfold sdB
    rw [check_ok hc, hages]
    simp only
    rw [havg]
  · unfold sdO
    rw [check_ok hc, hages]
    simp only
    rw [havg]

/-- C10 witness: a concrete two-row history with all subdwarf columns, no
`log_dt`, and the He-core-burning age window `(0, 1)`. -/
theorem C10_witness :
    sdA igZero hC10w = .error (.keyError "log_dt") ∧
    sdB igZero hC10w = .error (.keyError "log_dt") ∧
    sdO igZero hC10w = .error (.keyError "log_dt") :=
  C10_amended igZero hC10w 0 1 (by decide) (by decide) (by decide)

/-- C4 counterexample: two independent failures of the claim as stated.
First, on the one-row history `hC4b` with `log_L = -1` and `log_LH = -2`, at
no row does the hydrogen-burning luminosity exceed `0.999` of the total
luminosity (`10^-2` is a tenth of `10^-1`, and `¬ msStartFrac (-2) (-1)`
records this), so the claim says `MS` returns Absent — but the code's actual
test is the ratio of the log columns, `log_LH / log_L = 2 > 0.999`, so `MS`
returns the selection `[0]`.  Second, on the two-row history `hC4` with tied
ages `[3, 3]`, the code's start test holds at row 1 and not at row 0, yet the
`MS` selection is `[0, 1]`: it does not start at the first start row, because
the selection is made by age values and row 0 shares the age of the start
row. -/
theorem C4_counterexample :
    (MS hC4b = .ok (some [0]) ∧
      col hC4b "log_L" 0 = -1 ∧ col hC4b "log_LH" 0 = -2 ∧
      ¬ msStartFrac (-2) (-1)) ∧
    (MS hC4 = .ok (some [0, 1]) ∧
      decide (999/1000 < col hC4 "log_LH" 0 / col hC4 "log_L" 0) = false ∧
      decide (999/1000 < col hC4 "log_LH" 1 / col hC4 "log_L" 1) = true) := by
  refine ⟨⟨by decide, by decide, by decide, ?_⟩, by decide, by decide, by decide⟩
  intro hcontra
  rw [msStartFrac,
    show (((-1 : ℚ) : ℚ) : ℝ) = -(1:ℝ) by push_cast; ring,
    show (((-2 : ℚ) : ℚ) : ℝ) = -((2:ℕ):ℝ) by push_cast; ring,
    Real.rpow_neg (by norm_num), Real.rpow_neg (by norm_num),
    Real.rpow_one, Real.rpow_natCast] at hcontra
  norm_num at hcontra

/-- C4 (amended): for histories with strictly increasing age and the MS
columns, and with the start condition amended from the claim's luminosity
fraction to the code's actual test — the ratio of the log columns,
`log_LH / log_L > 0.999` (the two differ, see the counterexample's `hC4b`
part): if no row satisfies that test then `MS` returns Absent; otherwise,
with `i` the first row where it holds: if `center_h1` never drops below
`1e-12` the selection is exactly rows `i` through the last row, and if `j` is
the first row with `center_h1 < 1e-12` the selection is exactly the rows `k`
with `i ≤ k ≤ j` (empty when `j < i`, still not Absent). -/
theorem C4_amended (h : History) (logL logLH h1 age : ℕ → ℚ)
    (hlL : List.lookup "log_L" h.cols = some logL)
    (hlLH : List.lookup "log_LH" h.cols = some logLH)
    (hlh1 : List.lookup "center_h1" h.cols = some h1)
    (hlage : List.lookup "age" h.cols = some age)
    (S : AgeStrictInc h.n age) :
    ((∀ k, k < h.n → ¬(999/1000 < logLH k / logL k)) → MS h = .ok none) ∧
    (∀ i, i < h.n → 999/1000 < logLH i / logL i →
      (∀ k, k < i → ¬(999/1000 < logLH k / logL k)) →
      ((∀ k, k < h.n → ¬(h1 k < 1/10^12)) →
        MS h = .ok (some (idxWhere h.n (fun k => decide (i ≤ k))))) ∧
      (∀ j, j < h.n → h1 j < 1/10^12 → (∀ k, k < j → ¬(h1 k < 1/10^12)) →
        MS h = .ok (some (idxWhere h.n (fun k => decide (i ≤ k) && decide (k ≤ j)))))) := by
  have hchk : check_history_parameters h msPars "MS" = .ok () := by
    refine check_ok ?_
    intro p hp
    fin_cases hp
    · exact hasCol_of_lookup hlL
    · exact hasCol_of_lookup hlLH
    · exact hasCol_of_lookup hlh1
    · exact hasCol_of_lookup hlage
  have hcL := col_eq hlL
  have hcLH := col_eq hlLH
  have hch1 := col_eq hlh1
  have hcage := col_eq hlage
  constructor
  · intro hnone
    have hany : anyRow h.n (fun k => decide (999/1000 < logLH k / logL k)) = false :=
      (anyRow_false_iff _ _).mpr (fun k hk => decide_eq_false (hnone k hk))
    unfold MS
    rw [hchk]
    simp only [hcL, hcLH, hch1, hcage]
    rw [if_pos (show (!anyRow h.n
      (fun k => decide (999/1000 < logLH k / logL k))) = true by rw [hany]; rfl)]
  · intro i hi hPi hPmin
    have hany : anyRow h.n (fun k => decide (999/1000 < logLH k / logL k)) = true :=
      (anyRow_true_iff _ _).mpr ⟨i, hi, decide_eq_true hPi⟩
    have hfirst : first? ((idxWhere h.n
        (fun k => decide (999/1000 < logLH k / logL k))).map age) = .ok (age i) :=
      first?_idxWhere_map age hi (decide_eq_true hPi)
        (fun k hk => decide_eq_false (hPmin k hk))
    constructor
    · intro hE
      have hanyE : anyRow h.n (fun k => decide (h1 k < 1/10^12)) = false :=
        (anyRow_false_iff _ _).mpr (fun k hk => decide_eq_false (hE k hk))
      have hn0 : 0 < h.n := lt_of_le_of_lt (Nat.zero_le i) hi
      have hlastE : last? ((List.range h.n).map age) = .ok (age (h.n - 1)) :=
        last?_range_map age hn0
      have hEq : idxWhere h.n
          (fun k => decide (age i ≤ age k) && decide (age k ≤ age (h.n - 1))) =
          idxWhere h.n (fun k => decide (i ≤ k)) := by
        refine idxWhere_congr (fun k hk => ?_)
        rw [decide_eq_decide.mpr (S.le_iff hi hk),
          decide_eq_true ((S.le_iff hk (by omega)).mpr (by omega)), Bool.and_true]
      unfold MS
      rw [hchk]
      simp only [hcL, hcLH, hch1, hcage]
      rw [if_neg (show ¬(!anyRow h.n
        (fun k => decide (999/1000 < logLH k / logL k))) = true by rw [hany]; simp)]
      rw [hfirst]
      simp only
      rw [if_pos (show (!anyRow h.n
        (fun k => decide (h1 k < 1/10^12))) = true by rw [hanyE]; rfl)]
      rw [hlastE]
      simp only
      rw [hEq]
    · intro j hj hEj hEmin
      have hanyE : anyRow h.n (fun k => decide (h1 k < 1/10^12)) = true :=
        (anyRow_true_iff _ _).mpr ⟨j, hj, decide_eq_true hEj⟩
      have hfirstE : first? ((idxWhere h.n
          (fun k => decide (h1 k < 1/10^12))).map age) = .ok (age j) :=
        first?_idxWhere_map age hj (decide_eq_true hEj)
          (fun k hk => decide_eq_false (hEmin k hk))
      have hEq : idxWhere h.n
          (fun k => decide (age i ≤ age k) && decide (age k ≤ age j)) =
          idxWhere h.n (fun k => decide (i ≤ k) && decide (k ≤ j)) := by
        refine idxWhere_congr (fun k hk => ?_)
        rw [decide_eq_decide.mpr (S.le_iff hi hk), decide_eq_decide.mpr (S.le_iff hk hj)]
      unfold MS
      rw [hchk]
      simp only [hcL, hcLH, hch1, hcage]
      rw [if_neg (show ¬(!anyRow h.n
        (fun k => decide (999/1000 < logLH k / logL k))) = true by rw [hany]; simp)]
      rw [hfirst]
      simp only
      rw [if_neg (show ¬(!anyRow h.n
        (fun k => decide (h1 k < 1/10^12))) = true by rw [hanyE]; simp)]
      rw [hfirstE]
      simp only
      rw [hEq]

/-- C4 witness: on a three-row strictly-aged history where the MS start
condition first holds at row 1 and `center_h1` never depletes, `MS` selects
exactly rows 1 and 2. -/
theorem C4_witness :
    MS hC4w = .ok (some (idxWhere hC4w.n (fun k => decide (1 ≤ k)))) :=
  ((C4_amended hC4w (listCol [1, 1, 1]) (listCol [0, 1, 1]) (listCol [1/2, 1/2, 1/2])
      (listCol [0, 1, 2]) rfl rfl rfl rfl
      (ageStrictInc_of_adj (by decide))).2 1 (by decide) (by decide)
      (by decide)).1 (by decide)

/-- C8: for a history with strictly increasing age where the mass-loss rate
`lg_mstar_dot_1` first reaches `-10` or above at row `i`: if it first drops
back below `-10` at a later row `j`, the `ML` selection is exactly rows
`i..j` inclusive, `MLstart` returns exactly row `i` and `MLend` exactly row
`j`; if it never drops back below `-10` after row `i`, the window extends to
the last row. -/
theorem C8_ml_window (h : History) (md age : ℕ → ℚ)
    (hlmd : List.lookup "lg_mstar_dot_1" h.cols = some md)
    (hlage : List.lookup "age" h.cols = some age)
    (S : AgeStrictInc h.n age)
    (i : ℕ) (hi : i < h.n) (hmdi : -10 ≤ md i) (hmin : ∀ k, k < i → md k < -10) :
    (∀ j, i < j → j < h.n → md j < -10 → (∀ k, i < k → k < j → ¬(md k < -10)) →
      ML h = .ok (some (idxWhere h.n (fun k => decide (i ≤ k) && decide (k ≤ j)))) ∧
      MLstart h = .ok (some [i]) ∧ MLend h = .ok (some [j])) ∧
    ((∀ k, i < k → k < h.n → ¬(md k < -10)) →
      ML h = .ok (some (idxWhere h.n (fun k => decide (i ≤ k)))) ∧
      MLstart h = .ok (some [i]) ∧ MLend h = .ok (some [h.n - 1])) := by
  have hchkML : check_history_parameters h mlPars "ML" = .ok () := by
    refine check_ok ?_
    intro p hp
    fin_cases hp
    · exact hasCol_of_lookup hlmd
    · exact hasCol_of_lookup hlage
  have hchkS : check_history_parameters h mlPars "MLstart" = .ok () := by
    refine check_ok ?_
    intro p hp
    fin_cases hp
    · exact hasCol_of_lookup hlmd
    · exact hasCol_of_lookup hlage
  have hchkE : check_history_parameters h mlPars "MLend" = .ok () := by
    refine check_ok ?_
    intro p hp
    fin_cases hp
    · exact hasCol_of_lookup hlmd
    · exact hasCol_of_lookup hlage
  have hcmd := col_eq hlmd
  have hcage := col_eq hlage
  have hn0 : 0 < h.n := lt_of_le_of_lt (Nat.zero_le i) hi
  have hGuard : allRow h.n (fun k => decide (md k < -10)) = false :=
    (allRow_false_iff _ _).mpr ⟨i, hi, decide_eq_false (not_lt.mpr hmdi)⟩
  have hfirstS : first? ((idxWhere h.n (fun k => decide (-10 ≤ md k))).map age) =
      .ok (age i) :=
    first?_idxWhere_map age hi (decide_eq_true hmdi)
      (fun k hk => decide_eq_false (not_le.mpr (hmin k hk)))
  have hstart : first? (idxWhere h.n (fun k => decide (age i ≤ age k))) = .ok i :=
    first?_idxWhere hi (decide_eq_true (le_refl _))
      (fun k hk => decide_eq_false (not_le.mpr (S k i hk hi)))
  constructor
  · intro j hij hj hmdj hbetween
    have hfirstEnd : first? ((idxWhere h.n
        (fun k => decide (age i < age k) && decide (md k < -10))).map age) =
        .ok (age j) := by
      refine first?_idxWhere_map age hj ?_ ?_
      · rw [decide_eq_true (S i j hij hj), decide_eq_true hmdj]
        rfl
      · intro k hk
        rcases Nat.lt_or_ge i k with hik | hki
        · rw [decide_eq_false (hbetween k hik hk)]
          simp
        · rw [decide_eq_false (not_lt.mpr ((S.le_iff (lt_trans hk hj) hi).mpr hki))]
          rfl
    have hAges : MLAges h = .ok (some (age i, age j)) := by
      unfold MLAges
      rw [hchkML]
      simp only [hcmd, hcage]
      rw [if_neg (show ¬(allRow h.n (fun k => decide (md k < -10))) = true by
        rw [hGuard]; simp)]
      rw [hfirstS]
      simp only
      rw [hfirstEnd]
    have hEq : idxWhere h.n (fun k => decide (age i ≤ age k) && decide (age k ≤ age j)) =
        idxWhere h.n (fun k => decide (i ≤ k) && decide (k ≤ j)) := by
      refine idxWhere_congr (fun k hk => ?_)
      rw [decide_eq_decide.mpr (S.le_iff hi hk), decide_eq_decide.mpr (S.le_iff hk hj)]
    have hend : last? (idxWhere h.n (fun k => decide (age k ≤ age j))) = .ok j := by
      refine last?_idxWhere hj (decide_eq_true (le_refl _)) ?_
      intro k hjk hk
      exact decide_eq_false (not_le.mpr (S j k hjk hk))
    refine ⟨?_, ?_, ?_⟩
    · unfold ML
      rw [hchkML]
      simp only [hcmd, hcage]
      rw [if_neg (show ¬(allRow h.n (fun k => decide (md k < -10))) = true by
        rw [hGuard]; simp)]
      rw [hfirstS]
      simp only
      rw [hfirstEnd]
      simp only
      rw [hEq]
    · unfold MLstart
      rw [hchkS]
      simp only [hcage]
      rw [hAges]
      simp only
      rw [hstart]
    · unfold MLend
      rw [hchkE]
      simp only [hcage]
      rw [hAges]
      simp only
      rw [hend]
  · intro hafter
    have hEmpty : idxWhere h.n
        (fun k => decide (age i < age k) && decide (md k < -10)) = [] := by
      refine idxWhere_nil (fun k hk => ?_)
      rcases Nat.lt_or_ge i k with hik | hki
      · rw [decide_eq_false (hafter k hik hk)]
        simp
      · rw [decide_eq_false (not_lt.mpr ((S.le_iff hk hi).mpr hki))]
        rfl
    have hlastR : last? ((List.range h.n).map age) = .ok (age (h.n - 1)) :=
      last?_range_map age hn0
    have hAges : MLAges h = .ok (some (age i, age (h.n - 1))) := by
      unfold MLAges
      rw [hchkML]
      simp only [hcmd, hcage]
      rw [if_neg (show ¬(allRow h.n (fun k => decide (md k < -10))) = true by
        rw [hGuard]; simp)]
      rw [hfirstS]
      simp only
      rw [hEmpty]
      simp only [List.map_nil]
      rw [show first? ([] : List ℚ) = .error .indexError from rfl]
      simp only
      rw [hlastR]
    have hEq : idxWhere h.n
        (fun k => decide (age i ≤ age k) && decide (age k ≤ age (h.n - 1))) =
        idxWhere h.n (fun k => decide (i ≤ k)) := by
      refine idxWhere_congr (fun k hk => ?_)
      rw [decide_eq_decide.mpr (S.le_iff hi hk),
        decide_eq_true ((S.le_iff hk (by omega)).mpr (by omega)), Bool.and_true]
    have hend : last? (idxWhere h.n (fun k => decide (age k ≤ age (h.n - 1)))) =
        .ok (h.n - 1) := by
      refine last?_idxWhere (by omega) (decide_eq_true (le_refl _)) ?_
      intro k hjk hk
      omega
    refine ⟨?_, ?_, ?_⟩
    · unfold ML
      rw [hchkML]
      simp only [hcmd, hcage]
      rw [if_neg (show ¬(allRow h.n (fun k => decide (md k < -10))) = true by
        rw [hGuard]; simp)]
      rw [hfirstS]
      simp only
      rw [hEmpty]
      simp only [List.map_nil]
      rw [show first? ([] : List ℚ) = .error .indexError from rfl]
      simp only
      rw [hlastR]
      simp only
      rw [hEq]
    · unfold MLstart
      rw [hchkS]
      simp only [hcage]
      rw [hAges]
      simp only
      rw [hstart]
    · unfold MLend
      rw [hchkE]
      simp only [hcage]
      rw [hAges]
      simp only
      rw [hend]

/-- C8 witness: the five-row history whose mass-loss rate first reaches `-10`
at row 1 and first drops back below `-10` at row 3: the `ML` window is rows
1..3 with `MLstart = [1]` and `MLend = [3]`. -/
theorem C8_witness :
    ML hC8 = .ok (some (idxWhere hC8.n (fun k => decide (1 ≤ k) && decide (k ≤ 3)))) ∧
    MLstart hC8 = .ok (some [1]) ∧ MLend hC8 = .ok (some [3]) :=
  (C8_ml_window hC8 (listCol [-11, -9, -9, -11, -9]) (listCol [0, 1, 2, 3, 4]) rfl rfl
    (ageStrictInc_of_adj (by decide)) 1 (by decide) (by decide) (by decide)).1
    3 (by decide) (by decide) (by decide)
    (by intro k hk1 hk2; interval_cases k; decide)

theorem foldl_max_mem (x : ℚ) (xs : List ℚ) : xs.foldl max x ∈ x :: xs := by
  induction xs generalizing x with
  | nil => simp
  | cons y ys ih =>
    rw [List.foldl_cons]
    rcases List.mem_cons.mp (ih (max x y)) with hm | hm
    · rcases max_choice x y with h' | h'
      · rw [hm, h']
        simp
      · rw [hm, h']
        simp
    · exact List.mem_cons_of_mem _ (List.mem_cons_of_mem _ hm)

theorem foldl_max_le (x : ℚ) (xs : List ℚ) : ∀ y ∈ x :: xs, y ≤ xs.foldl max x := by
  induction xs generalizing x with
  | nil =>
    intro y hy
    simp at hy
    simp [hy]
  | cons z zs ih =>
    intro y hy
    rw [List.foldl_cons]
    rcases List.mem_cons.mp hy with rfl | hy'
    · exact le_trans (le_max_left y z) (ih (max y z) _ (List.mem_cons_self _ _))
    · rcases List.mem_cons.mp hy' with rfl | hy''
      · exact le_trans (le_max_right x y) (ih (max x y) _ (List.mem_cons_self _ _))
      · exact ih (max x z) y (List.mem_cons_of_mem _ hy'')

theorem nmax?_ok_of_ne_nil {l : List ℚ} (h : l ≠ []) : ∃ m, nmax? l = .ok m := by
  cases l with
  | nil => exact absurd rfl h
  | cons x xs => exact ⟨xs.foldl max x, rfl⟩

theorem nmax?_spec {l : List ℚ} {m : ℚ} (h : nmax? l = .ok m) :
    m ∈ l ∧ ∀ x ∈ l, x ≤ m := by
  cases l with
  | nil => simp [nmax?] at h
  | cons x xs =>
    simp only [nmax?, Except.ok.injEq] at h
    subst h
    exact ⟨foldl_max_mem x xs, foldl_max_le x xs⟩

/-- C6 counterexample: on `hC6` the shell-burning start row is 0 with
`log_LHe = 2`, and already at row 1 (`log_LHe = 3/2`) the He luminosity
`10^log_LHe` has dropped below half its start value (`10^1.5 < 50`); yet the
selection is `[0, 1, 2]`: the code compares the *log* luminosity against half
of the *log* value (`log_LHe < 2/2 = 1`), which first happens only at row 2,
so the selection extends past the claim's end row. -/
theorem C6_counterexample :
    HeShellBurning hC6 = .ok (some [0, 1, 2]) ∧
    col hC6 "log_LHe" 0 = 2 ∧ col hC6 "log_LHe" 1 = 3/2 ∧
    col hC6 "age" 0 < col hC6 "age" 1 ∧
    heLumHalfDrop 2 (3/2) := by
  refine ⟨by decide, by decide, by decide, by decide, ?_⟩
  show (10:ℝ) ^ (((3/2 : ℚ) : ℚ) : ℝ) < 1/2 * (10:ℝ) ^ (((2 : ℚ) : ℚ) : ℝ)
  have hc1 : (((3/2 : ℚ) : ℚ) : ℝ) = (3:ℝ)/2 := by push_cast; ring
  have hc2 : (((2 : ℚ) : ℚ) : ℝ) = ((2:ℕ):ℝ) := by push_cast; ring
  rw [hc1, hc2, Real.rpow_natCast]
  have h1 : ((10:ℝ) ^ ((3:ℝ)/2)) ^ (2:ℕ) = 1000 := by
    rw [← Real.rpow_natCast ((10:ℝ) ^ ((3:ℝ)/2)) 2, ← Real.rpow_mul (by norm_num)]
    rw [show (3:ℝ)/2 * ((2:ℕ):ℝ) = ((3:ℕ):ℝ) by push_cast; ring, Real.rpow_natCast]
    norm_num
  have key : (10:ℝ) ^ ((3:ℝ)/2) < 50 := by
    refine lt_of_pow_lt_pow_left₀ 2 (by norm_num) ?_
    rw [h1]
    norm_num
  calc (10:ℝ) ^ ((3:ℝ)/2) < 50 := key
    _ = 1/2 * (10:ℝ) ^ (2:ℕ) := by norm_num

/-- C6 (amended): for a history with strictly increasing age, the shell-burning
columns, some row with `log_LHe ≥ 1`, and `i` the first row with
`c_core_mass ≥ 0.01`: the `HeShellBurning` selection starts at row `i` and
ends at the first later row `j` where `log_LHe` drops below *half of the
`log_LHe` value at row `i`* (a comparison of logarithms, not of the
luminosities `10^log_LHe`); if no such row exists it ends at the first row
`m` with `c_core_mass ≥ 0.98 × max c_core_mass` — and such a row always
exists, so the final fall-back to the last row is unreachable. -/
theorem C6_amended (h : History) (lhe c age : ℕ → ℚ)
    (hllhe : List.lookup "log_LHe" h.cols = some lhe)
    (hlc : List.lookup "c_core_mass" h.cols = some c)
    (hlage : List.lookup "age" h.cols = some age)
    (S : AgeStrictInc h.n age)
    (hlheAny : ∃ k, k < h.n ∧ 1 ≤ lhe k)
    (i : ℕ) (hi : i < h.n) (hci : 1/100 ≤ c i) (hcmin : ∀ k, k < i → c k < 1/100) :
    (∀ j, i < j → j < h.n → lhe j < lhe i / 2 →
      (∀ k, i < k → k < j → ¬(lhe k < lhe i / 2)) →
      HeShellBurning h =
        .ok (some (idxWhere h.n (fun k => decide (i ≤ k) && decide (k ≤ j))))) ∧
    ((∀ k, i < k → k < h.n → ¬(lhe k < lhe i / 2)) →
      ∀ cmax, nmax? ((List.range h.n).map c) = .ok cmax →
      (∀ m, m < h.n → 98/100 * cmax ≤ c m → (∀ k, k < m → ¬(98/100 * cmax ≤ c k)) →
        HeShellBurning h =
          .ok (some (idxWhere h.n (fun k => decide (i ≤ k) && decide (k ≤ m))))) ∧
      (∃ m, m < h.n ∧ 98/100 * cmax ≤ c m)) := by
  have hchk : check_history_parameters h heShellPars "HeShellBurning" = .ok () := by
    refine check_ok ?_
    intro p hp
    fin_cases hp
    · exact hasCol_of_lookup hllhe
    · exact hasCol_of_lookup hlc
    · exact hasCol_of_lookup hlage
  have hclhe := col_eq hllhe
  have hcc := col_eq hlc
  have hcage := col_eq hlage
  obtain ⟨w, hw, hw1⟩ := hlheAny
  have hg1 : allRow h.n (fun k => decide (lhe k < 1)) = false :=
    (allRow_false_iff _ _).mpr ⟨w, hw, decide_eq_false (not_lt.mpr hw1)⟩
  have hg2 : allRow h.n (fun k => decide (c k < 1/100)) = false :=
    (allRow_false_iff _ _).mpr ⟨i, hi, decide_eq_false (not_lt.mpr hci)⟩
  have hfirstC : first? ((idxWhere h.n (fun k => decide (1/100 ≤ c k))).map age) =
      .ok (age i) :=
    first?_idxWhere_map age hi (decide_eq_true hci)
      (fun k hk => decide_eq_false (not_le.mpr (hcmin k hk)))
  have hlheB : first? ((idxWhere h.n (fun k => decide (age k = age i))).map lhe) =
      .ok (lhe i) :=
    first?_idxWhere_map lhe hi (decide_eq_true rfl)
      (fun k hk => decide_eq_false (ne_of_lt (S k i hk hi)))
  constructor
  · intro j hij hj hdropj hbetween
    obtain ⟨rest, hcons, -⟩ : ∃ l, idxWhere h.n
        (fun k => decide (age i < age k) && decide (lhe k < lhe i / 2)) = j :: l ∧
        ∀ x ∈ l, j < x := by
      refine idxWhere_eq_cons hj ?_ ?_
      · rw [decide_eq_true (S i j hij hj), decide_eq_true hdropj]
        rfl
      · intro k hk
        rcases Nat.lt_or_ge i k with hik | hki
        · rw [decide_eq_false (hbetween k hik hk)]
          simp
        · rw [decide_eq_false (not_lt.mpr ((S.le_iff (lt_trans hk hj) hi).mpr hki))]
          rfl
    have hEq : idxWhere h.n
        (fun k => decide (age i ≤ age k) && decide (age k ≤ age j)) =
        idxWhere h.n (fun k => decide (i ≤ k) && decide (k ≤ j)) := by
      refine idxWhere_congr (fun k hk => ?_)
      rw [decide_eq_decide.mpr (S.le_iff hi hk), decide_eq_decide.mpr (S.le_iff hk hj)]
    unfold HeShellBurning
    rw [hchk]
    simp only [hclhe, hcc, hcage]
    rw [if_neg (show ¬(allRow h.n (fun k => decide (lhe k < 1))) = true by
      rw [hg1]; simp)]
    rw [if_neg (show ¬(allRow h.n (fun k => decide (c k < 1/100))) = true by
      rw [hg2]; simp)]
    rw [hfirstC]
    simp only
    rw [hlheB]
    simp only
    rw [hcons]
    simp only [List.map_cons, List.isEmpty_cons, Bool.not_false, if_true]
    rw [show first? (age j :: rest.map age) = .ok (age j) from rfl]
    simp only
    rw [hEq]
  · intro hnodrop cmax hcmax
    have hEndsNil : idxWhere h.n
        (fun k => decide (age i < age k) && decide (lhe k < lhe i / 2)) = [] := by
      refine idxWhere_nil (fun k hk => ?_)
      rcases Nat.lt_or_ge i k with hik | hki
      · rw [decide_eq_false (hnodrop k hik hk)]
        simp
      · rw [decide_eq_false (not_lt.mpr ((S.le_iff hk hi).mpr hki))]
        rfl
    obtain ⟨hmem, hle⟩ := nmax?_spec hcmax
    have hcile : c i ≤ cmax := hle (c i) (by
      refine List.mem_map.mpr ⟨i, ?_, rfl⟩
      exact List.mem_range.mpr hi)
    have hcmax0 : 0 < cmax := lt_of_lt_of_le (by norm_num) (le_trans hci hcile)
    constructor
    · intro m hm hcm hcmmin
      have hfirstM : first? ((idxWhere h.n
          (fun k => decide (98/100 * cmax ≤ c k))).map age) = .ok (age m) :=
        first?_idxWhere_map age hm (decide_eq_true hcm)
          (fun k hk => decide_eq_false (hcmmin k hk))
      have hEq : idxWhere h.n
          (fun k => decide (age i ≤ age k) && decide (age k ≤ age m)) =
          idxWhere h.n (fun k => decide (i ≤ k) && decide (k ≤ m)) := by
        refine idxWhere_congr (fun k hk => ?_)
        rw [decide_eq_decide.mpr (S.le_iff hi hk), decide_eq_decide.mpr (S.le_iff hk hm)]
      unfold HeShellBurning
      rw [hchk]
      simp only [hclhe, hcc, hcage]
      rw [if_neg (show ¬(allRow h.n (fun k => decide (lhe k < 1))) = true by
        rw [hg1]; simp)]
      rw [if_neg (show ¬(allRow h.n (fun k => decide (c k < 1/100))) = true by
        rw [hg2]; simp)]
      rw [hfirstC]
      simp only
      rw [hlheB]
      simp only
      rw [hEndsNil]
      simp only [List.map_nil, List.isEmpty_nil, Bool.not_true, Bool.false_eq_true,
        if_false]
      rw [hcmax]
      simp only
      rw [hfirstM]
      simp only
      rw [hEq]
    · obtain ⟨m, hmr, hcm⟩ := List.mem_map.mp hmem
      refine ⟨m, List.mem_range.mp hmr, ?_⟩
      rw [hcm]
      nlinarith

/-- C6 witness: on `hC6w` shell burning starts at row 0 (`log_LHe = 2`) and
the log value halves at row 1, so the selection is rows 0..1. -/
theorem C6_witness :
    HeShellBurning hC6w =
      .ok (some (idxWhere hC6w.n (fun k => decide (0 ≤ k) && decide (k ≤ 1)))) :=
  (C6_amended hC6w (listCol [2, 1/2, 1/2]) (listCol [1/50, 1/50, 1/50])
    (listCol [0, 1, 2]) rfl rfl rfl (ageStrictInc_of_adj (by decide))
    ⟨0, by decide, by decide⟩ 0 (by decide) (by decide) (by decide)).1
    1 (by decide) (by decide) (by decide) (by intro k hk1 hk2; omega)

/-- C7 counterexample: on `hC7` the `He_WD` start condition
`(log_Teff < 4 and log_g > 7) or log_g ≥ 7.5` already holds at row 0 (the
first row), yet the selection is `[1]`: the source returns
`np.where(age > a1)`, which excludes the start row itself, while the claim
says that row is included. -/
theorem C7_counterexample :
    He_WD hC7 = .ok (some [1]) ∧
    ((decide (col hC7 "log_Teff" 0 < 4) && decide (7 < col hC7 "log_g" 0)) ||
      decide (15/2 ≤ col hC7 "log_g" 0)) = true := by
  decide

/-- C7 (amended): for a history with strictly increasing age and the `He_WD`
columns: the detector returns Absent if the maximum `log_g` is below 7, or if
some row has `c_core_mass > 0.01` or `log_LHe > 1`, or if the start condition
`(log_Teff < 4 and log_g > 7) or log_g ≥ 7.5` never holds; otherwise, with `i`
the first row where the start condition holds, the selection is exactly the
rows strictly after row `i` (the start row itself excluded), extending to the
last row. -/
theorem C7_amended (h : History) (lhe c teff g age : ℕ → ℚ)
    (hllhe : List.lookup "log_LHe" h.cols = some lhe)
    (hlc : List.lookup "c_core_mass" h.cols = some c)
    (hlteff : List.lookup "log_Teff" h.cols = some teff)
    (hlg : List.lookup "log_g" h.cols = some g)
    (hlage : List.lookup "age" h.cols = some age)
    (S : AgeStrictInc h.n age) (hn : 0 < h.n) :
    ((∀ k, k < h.n → g k < 7) → He_WD h = .ok none) ∧
    (∀ gm, nmax? ((List.range h.n).map g) = .ok gm → 7 ≤ gm →
      ((∃ k, k < h.n ∧ 1/100 < c k) → He_WD h = .ok none) ∧
      ((∀ k, k < h.n → c k ≤ 1/100) →
        ((∃ k, k < h.n ∧ 1 < lhe k) → He_WD h = .ok none) ∧
        ((∀ k, k < h.n → lhe k ≤ 1) →
          ((∀ k, k < h.n → ¬((teff k < 4 ∧ 7 < g k) ∨ 15/2 ≤ g k)) →
            He_WD h = .ok none) ∧
          (∀ i, i < h.n → ((teff i < 4 ∧ 7 < g i) ∨ 15/2 ≤ g i) →
            (∀ k, k < i → ¬((teff k < 4 ∧ 7 < g k) ∨ 15/2 ≤ g k)) →
            He_WD h = .ok (some (idxWhere h.n (fun k => decide (i < k)))))))) := by
  have hchk : check_history_parameters h heWdPars "He_WD" = .ok () := by
    refine check_ok ?_
    intro p hp
    fin_cases hp
    · exact hasCol_of_lookup hllhe
    · exact hasCol_of_lookup hlc
    · exact hasCol_of_lookup hlteff
    · exact hasCol_of_lookup hlg
    · exact hasCol_of_lookup hlage
  have hclhe := col_eq hllhe
  have hcc := col_eq hlc
  have hcteff := col_eq hlteff
  have hcg := col_eq hlg
  have hcage := col_eq hlage
  have hmax_ok : ∀ f : ℕ → ℚ, ∃ m, nmax? ((List.range h.n).map f) = .ok m := by
    intro f
    refine nmax?_ok_of_ne_nil ?_
    simp only [ne_eq, List.map_eq_nil_iff, List.range_eq_nil]
    omega
  have hstartB_false : ∀ k, ¬((teff k < 4 ∧ 7 < g k) ∨ 15/2 ≤ g k) →
      ((decide (teff k < 4) && decide (7 < g k)) || decide (15/2 ≤ g k)) = false := by
    intro k hk
    push_neg at hk
    obtain ⟨h1, h2⟩ := hk
    rcases Classical.em (teff k < 4) with ht | ht
    · rw [decide_eq_false (h1 ht |> not_lt.mpr |> fun hh => not_lt.mpr (h1 ht)),
        decide_eq_false (not_le.mpr h2)]
      simp
    · rw [decide_eq_false ht, decide_eq_false (not_le.mpr h2)]
      simp
  have hstartB_true : ∀ k, ((teff k < 4 ∧ 7 < g k) ∨ 15/2 ≤ g k) →
      ((decide (teff k < 4) && decide (7 < g k)) || decide (15/2 ≤ g k)) = true := by
    intro k hk
    rcases hk with ⟨h1, h2⟩ | h3
    · rw [decide_eq_true h1, decide_eq_true h2]
      rfl
    · rw [decide_eq_true h3]
      simp
  constructor
  · intro hglt
    obtain ⟨gm, hgm⟩ := hmax_ok g
    have hgmlt : gm < 7 := by
      obtain ⟨hmem, -⟩ := nmax?_spec hgm
      obtain ⟨k, hkr, rfl⟩ := List.mem_map.mp hmem
      exact hglt k (List.mem_range.mp hkr)
    unfold He_WD
    rw [hchk]
    simp only [hclhe, hcc, hcteff, hcg, hcage]
    rw [hgm]
    simp only
    rw [if_pos hgmlt]
  · intro gm hgm hge
    have hnot7 : ¬(gm < 7) := not_lt.mpr hge
    constructor
    · intro ⟨k, hk, hck⟩
      obtain ⟨cm, hcm⟩ := hmax_ok c
      have hcmgt : 1/100 < cm := by
        obtain ⟨-, hle⟩ := nmax?_spec hcm
        exact lt_of_lt_of_le hck (hle _ (List.mem_map.mpr ⟨k, List.mem_range.mpr hk, rfl⟩))
      unfold He_WD
      rw [hchk]
      simp only [hclhe, hcc, hcteff, hcg, hcage]
      rw [hgm]
      simp only
      rw [if_neg hnot7, hcm]
      simp only
      rw [if_pos hcmgt]
    · intro hcall
      obtain ⟨cm, hcm⟩ := hmax_ok c
      have hcmle : ¬(1/100 < cm) := by
        obtain ⟨hmem, -⟩ := nmax?_spec hcm
        obtain ⟨k, hkr, rfl⟩ := List.mem_map.mp hmem
        exact not_lt.mpr (hcall k (List.mem_range.mp hkr))
      constructor
      · intro ⟨k, hk, hlk⟩
        obtain ⟨lm, hlm⟩ := hmax_ok lhe
        have hlmgt : 1 < lm := by
          obtain ⟨-, hle⟩ := nmax?_spec hlm
          exact lt_of_lt_of_le hlk (hle _ (List.mem_map.mpr ⟨k, List.mem_range.mpr hk, rfl⟩))
        unfold He_WD
        rw [hchk]
        simp only [hclhe, hcc, hcteff, hcg, hcage]
        rw [hgm]
        simp only
        rw [if_neg hnot7, hcm]
        simp only
        rw [if_neg hcmle, hlm]
        simp only
        rw [if_pos hlmgt]
      · intro hlall
        obtain ⟨lm, hlm⟩ := hmax_ok lhe
        have hlmle : ¬(1 < lm) := by
          obtain ⟨hmem, -⟩ := nmax?_spec hlm
          obtain ⟨k, hkr, rfl⟩ := List.mem_map.mp hmem
          exact not_lt.mpr (hlall k (List.mem_range.mp hkr))
        constructor
        · intro hnostart
          have hnil : idxWhere h.n (fun k =>
              (decide (teff k < 4) && decide (7 < g k)) || decide (15/2 ≤ g k)) = [] :=
            idxWhere_nil (fun k hk => hstartB_false k (hnostart k hk))
          unfold He_WD
          rw [hchk]
          simp only [hclhe, hcc, hcteff, hcg, hcage]
          rw [hgm]
          simp only
          rw [if_neg hnot7, hcm]
          simp only
          rw [if_neg hcmle, hlm]
          simp only
          rw [if_neg hlmle, hnil]
          simp only [List.map_nil]
        · intro i hi hstarti hstartmin
          obtain ⟨rest, hcons, -⟩ := idxWhere_eq_cons hi (hstartB_true i hstarti)
            (fun k hk => hstartB_false k (hstartmin k hk))
          have hEq : idxWhere h.n (fun k => decide (age i < age k)) =
              idxWhere h.n (fun k => decide (i < k)) := by
            refine idxWhere_congr (fun k hk => ?_)
            rw [decide_eq_decide.mpr (S.lt_iff hi hk)]
          unfold He_WD
          rw [hchk]
          simp only [hclhe, hcc, hcteff, hcg, hcage]
          rw [hgm]
          simp only
          rw [if_neg hnot7, hcm]
          simp only
          rw [if_neg hcmle, hlm]
          simp only
          rw [if_neg hlmle, hcons]
          simp only [List.map_cons]
          rw [hEq]

/-- C7 witness: on `hC7` the start condition holds at row 0, and the `He_WD`
selection is the rows strictly after row 0. -/
theorem C7_witness :
    He_WD hC7 = .ok (some (idxWhere hC7.n (fun k => decide (0 < k)))) :=
  ((((C7_amended hC7 (listCol [0, 0]) (listCol [0, 0]) (listCol [9/2, 9/2])
    (listCol [38/5, 38/5]) (listCol [0, 1]) rfl rfl rfl rfl rfl
    (ageStrictInc_of_adj (by decide)) (by decide)).2 (38/5) (by decide)
    (by decide)).2 (by decide)).2 (by decide)).2 0 (by decide) (by decide)
    (by decide)

theorem first?_mem {α : Type} {l : List α} {x : α} (h : first? l = .ok x) : x ∈ l := by
  cases l with
  | nil => simp [first?] at h
  | cons y ys =>
    simp only [first?, Except.ok.injEq] at h
    subst h
    exact List.mem_cons_self _ _

theorem last?_mem {α : Type} {l : List α} {x : α} (h : last? l = .ok x) : x ∈ l := by
  unfold last? at h
  cases hl : l.getLast? with
  | none => rw [hl] at h; simp at h
  | some y =>
    rw [hl] at h
    simp only [Except.ok.injEq] at h
    subst h
    exact mem_of_mem_getLast? (by rw [hl]; rfl)

theorem MS_shape {h : History} {sel : List ℕ} (hsel : MS h = .ok (some sel)) :
    ∃ a1 a2, sel = idxWhere h.n (fun k =>
      decide (a1 ≤ col h "age" k) && decide (col h "age" k ≤ a2)) := by
  unfold MS at hsel
  simp only [] at hsel
  split at hsel
  · simp at hsel
  · split at hsel
    · simp at hsel
    · split at hsel
      · simp at hsel
      · split at hsel
        · simp at hsel
        · simp only [Except.ok.injEq, Option.some.injEq] at hsel
          exact ⟨_, _, hsel.symm⟩

theorem RGB_shape {h : History} {sel : List ℕ} (hsel : RGB h = .ok (some sel)) :
    ∃ a1 a2, sel = idxWhere h.n (fun k =>
      decide (a1 ≤ col h "age" k) && decide (col h "age" k ≤ a2)) := by
  unfold RGB at hsel
  simp only [] at hsel
  split at hsel
  · simp at hsel
  · split at hsel
    · simp at hsel
    · split at hsel
      · simp at hsel
      · split at hsel
        · simp at hsel
        · split at hsel
          · simp at hsel
          · split at hsel
            · simp at hsel
            · split at hsel
              · simp at hsel
              · simp only [Except.ok.injEq, Option.some.injEq] at hsel
                exact ⟨_, _, hsel.symm⟩

theorem HeIgnition_shape {h : History} {sel : List ℕ}
    (hsel : HeIgnition h = .ok (some sel)) : ∃ p, sel = idxWhere h.n p := by
  unfold HeIgnition at hsel
  simp only [] at hsel
  split at hsel
  · simp at hsel
  · split at hsel
    · simp at hsel
    · split at hsel
      · simp at hsel
      · split at hsel
        · simp at hsel
        · split at hsel
          · simp at hsel
          · simp only [Except.ok.injEq, Option.some.injEq] at hsel
            exact ⟨_, hsel.symm⟩

theorem HeCoreBurning_shape {heIgF : ℚ → ℚ} {h : History} {sel : List ℕ}
    (hsel : HeCoreBurning heIgF h = .ok (some sel)) : ∃ p, sel = idxWhere h.n p := by
  unfold HeCoreBurning at hsel
  simp only [] at hsel
  split at hsel
  · simp at hsel
  · split at hsel
    · simp at hsel
    · split at hsel
      · simp at hsel
      · split at hsel
        · simp at hsel
        · simp only [Except.ok.injEq, Option.some.injEq] at hsel
          exact ⟨_, hsel.symm⟩

theorem HeShellBurning_shape {h : History} {sel : List ℕ}
    (hsel : HeShellBurning h = .ok (some sel)) :
    ∃ a1 a2, sel = idxWhere h.n (fun k =>
      decide (a1 ≤ col h "age" k) && decide (col h "age" k ≤ a2)) := by
  unfold HeShellBurning at hsel
  simp only [] at hsel
  split at hsel
  · simp at hsel
  · split at hsel
    · simp at hsel
    · split at hsel
      · simp at hsel
      · split at hsel
        · simp at hsel
        · split at hsel
          · simp at hsel
          · split at hsel
            · simp at hsel
            · simp only [Except.ok.injEq, Option.some.injEq] at hsel
              exact ⟨_, _, hsel.symm⟩

theorem ML_shape {h : History} {sel : List ℕ} (hsel : ML h = .ok (some sel)) :
    ∃ a1 a2, sel = idxWhere h.n (fun k =>
      decide (a1 ≤ col h "age" k) && decide (col h "age" k ≤ a2)) := by
  unfold ML at hsel
  simp only [] at hsel
  split at hsel
  · simp at hsel
  · split at hsel
    · simp at hsel
    · split at hsel
      · simp at hsel
      · split at hsel
        · simp at hsel
        · simp only [Except.ok.injEq, Option.some.injEq] at hsel
          exact ⟨_, _, hsel.symm⟩

theorem He_WD_shape {h : History} {sel : List ℕ} (hsel : He_WD h = .ok (some sel)) :
    ∃ a1, sel = idxWhere h.n (fun k => decide (a1 < col h "age" k)) := by
  unfold He_WD at hsel
  simp only [] at hsel
  split at hsel
  · simp at hsel
  · split at hsel
    · simp at hsel
    · split at hsel
      · simp at hsel
      · split at hsel
        · simp at hsel
        · split at hsel
          · simp at hsel
          · split at hsel
            · simp at hsel
            · split at hsel
              · simp at hsel
              · split at hsel
                · simp at hsel
                · simp only [Except.ok.injEq, Option.some.injEq] at hsel
                  exact ⟨_, hsel.symm⟩

theorem CE_shape {h : History} {sel : List ℕ} (hsel : CE h = .ok (some sel)) :
    ∃ p, sel = idxWhere h.n p := by
  unfold CE at hsel
  split at hsel
  · simp at hsel
  · split at hsel
    · simp at hsel
    · simp only [Except.ok.injEq, Option.some.injEq] at hsel
      exact ⟨_, hsel.symm⟩

theorem sdA_shape {heIgF : ℚ → ℚ} {h : History} {sel : List ℕ}
    (hsel : sdA heIgF h = .ok (some sel)) : ∃ p, sel = idxWhere h.n p := by
  unfold sdA at hsel
  simp only [] at hsel
  split at hsel
  · simp at hsel
  · split at hsel
    · simp at hsel
    · simp at hsel
    · split at hsel
      · simp at hsel
      · split at hsel
        · simp at hsel
        · simp only [Except.ok.injEq, Option.some.injEq] at hsel
          exact ⟨_, hsel.symm⟩

theorem sdB_shape {heIgF : ℚ → ℚ} {h : History} {sel : List ℕ}
    (hsel : sdB heIgF h = .ok (some sel)) : ∃ p, sel = idxWhere h.n p := by
  unfold sdB at hsel
  simp only [] at hsel
  split at hsel
  · simp at hsel
  · split at hsel
    · simp at hsel
    · simp at hsel
    · split at hsel
      · simp at hsel
      · split at hsel
        · simp at hsel
        · simp only [Except.ok.injEq, Option.some.injEq] at hsel
          exact ⟨_, hsel.symm⟩

theorem sdO_shape {heIgF : ℚ → ℚ} {h : History} {sel : List ℕ}
    (hsel : sdO heIgF h = .ok (some sel)) : ∃ p, sel = idxWhere h.n p := by
  unfold sdO at hsel
  simp only [] at hsel
  split at hsel
  · simp at hsel
  · split at hsel
    · simp at hsel
    · simp at hsel
    · split at hsel
      · simp at hsel
      · split at hsel
        · simp at hsel
        · simp only [Except.ok.injEq, Option.some.injEq] at hsel
          exact ⟨_, hsel.symm⟩

theorem MLstart_shape {h : History} {sel : List ℕ}
    (hsel : MLstart h = .ok (some sel)) : ∃ x, x < h.n ∧ sel = [x] := by
  unfold MLstart at hsel
  simp only [] at hsel
  split at hsel
  · simp at hsel
  · split at hsel
    · simp at hsel
    · simp at hsel
    · split at hsel
      · simp at hsel
      · rename_i i heq
        have hi : i < h.n := (mem_idxWhere.mp (first?_mem heq)).1
        simp only [Except.ok.injEq, Option.some.injEq] at hsel
        exact ⟨i, hi, hsel.symm⟩

theorem MLend_shape {h : History} {sel : List ℕ}
    (hsel : MLend h = .ok (some sel)) : ∃ x, x < h.n ∧ sel = [x] := by
  unfold MLend at hsel
  simp only [] at hsel
  split at hsel
  · simp at hsel
  · split at hsel
    · simp at hsel
    · simp at hsel
    · split at hsel
      · simp at hsel
      · rename_i j heq
        have hj : j < h.n := (mem_idxWhere.mp (last?_mem heq)).1
        simp only [Except.ok.injEq, Option.some.injEq] at hsel
        exact ⟨j, hj, hsel.symm⟩

theorem CEstart_shape {h : History} {sel : List ℕ}
    (hsel : CEstart h = .ok (some sel)) : ∃ x, x < h.n ∧ sel = [x] := by
  unfold CEstart at hsel
  split at hsel
  · simp at hsel
  · simp at hsel
  · rename_i s hCE
    split at hsel
    · simp at hsel
    · rename_i i heq
      obtain ⟨p, hp⟩ := CE_shape hCE
      have hi : i < h.n := by
        have : i ∈ s := first?_mem heq
        rw [hp] at this
        exact (mem_idxWhere.mp this).1
      simp only [Except.ok.injEq, Option.some.injEq] at hsel
      exact ⟨i, hi, hsel.symm⟩

theorem CEend_shape {h : History} {sel : List ℕ}
    (hsel : CEend h = .ok (some sel)) : ∃ x, x < h.n ∧ sel = [x] := by
  unfold CEend at hsel
  split at hsel
  · simp at hsel
  · simp at hsel
  · rename_i s hCE
    split at hsel
    · simp at hsel
    · rename_i i heq
      obtain ⟨p, hp⟩ := CE_shape hCE
      have hi : i < h.n := by
        have : i ∈ s := last?_mem heq
        rw [hp] at this
        exact (mem_idxWhere.mp this).1
      simp only [Except.ok.injEq, Option.some.injEq] at hsel
      exact ⟨i, hi, hsel.symm⟩

theorem contiguous_ageWindow {n : ℕ} {A : ℕ → ℚ} (mono : AgeNonDec n A) (a1 a2 : ℚ) :
    Contiguous (idxWhere n (fun k => decide (a1 ≤ A k) && decide (A k ≤ a2))) := by
  refine contiguous_idxWhere ?_
  intro i j k hij hjk hkn hpi hpk
  simp only [Bool.and_eq_true, decide_eq_true_eq] at hpi hpk ⊢
  exact ⟨le_trans hpi.1 (mono i j hij (lt_of_le_of_lt hjk hkn)),
    le_trans (mono j k hjk hkn) hpk.2⟩

theorem contiguous_ageAfter {n : ℕ} {A : ℕ → ℚ} (mono : AgeNonDec n A) (a1 : ℚ) :
    Contiguous (idxWhere n (fun k => decide (a1 < A k))) := by
  refine contiguous_idxWhere ?_
  intro i j k hij hjk hkn hpi _
  simp only [decide_eq_true_eq] at hpi ⊢
  exact lt_of_lt_of_le hpi (mono i j hij (lt_of_le_of_lt hjk hkn))

/-- C9 counterexample: on the non-decreasingly aged history `hC9`,
`HeCoreBurning` (a range phase of the spec's table) returns the selection
`[0, 2]`, which is not contiguous: its row filter `c_core_mass ≤ 0.01` is not
monotone along the track, so row 1 (with `c_core_mass = 1/50`) is skipped
while rows 0 and 2 are kept. -/
theorem C9_counterexample :
    HeCoreBurning igZero hC9 = .ok (some [0, 2]) ∧
    AgeNonDec hC9.n (col hC9 "age") ∧
    ¬ Contiguous [0, 2] := by
  refine ⟨by decide, ?_, ?_⟩
  · intro i j hij hj
    have hj3 : j < 3 := hj
    interval_cases j <;> interval_cases i <;> decide
  · intro H
    exact absurd (H 0 (by decide) 2 (by decide) 1 (by decide) (by decide)) (by decide)

/-- C9 (amended): for every history with non-decreasing age and at least one
row, and every canonical detector returning a non-Absent selection: all
returned indices are valid (`< n`), strictly increasing, and the age at the
first returned index is at most the age at the last returned index; the
selection is moreover contiguous for the age-window range phases (`MS`, `RGB`,
`HeShellBurning`, `ML`, `He_WD`) and for the single-point phases (`init`,
`final`, `MLstart`, `MLend`, `CEstart`, `CEend`).  Contiguity does not hold in
general for `HeCoreBurning` (see the counterexample), nor is it asserted here
for `CE`, `HeIgnition` or the subdwarf band selections, whose row filters are
not age intervals. -/
theorem C9_amended (heIgF : ℚ → ℚ) (h : History) (age : ℕ → ℚ)
    (hlage : List.lookup "age" h.cols = some age)
    (mono : AgeNonDec h.n age) (hn : 0 < h.n) :
    (∀ sel, init h = .ok (some sel) → SelWF h.n age sel ∧ Contiguous sel) ∧
    (∀ sel, final h = .ok (some sel) → SelWF h.n age sel ∧ Contiguous sel) ∧
    (∀ sel, MS h = .ok (some sel) → SelWF h.n age sel ∧ Contiguous sel) ∧
    (∀ sel, RGB h = .ok (some sel) → SelWF h.n age sel ∧ Contiguous sel) ∧
    (∀ sel, HeIgnition h = .ok (some sel) → SelWF h.n age sel) ∧
    (∀ sel, HeCoreBurning heIgF h = .ok (some sel) → SelWF h.n age sel) ∧
    (∀ sel, HeShellBurning h = .ok (some sel) → SelWF h.n age sel ∧ Contiguous sel) ∧
    (∀ sel, sdA heIgF h = .ok (some sel) → SelWF h.n age sel) ∧
    (∀ sel, sdB heIgF h = .ok (some sel) → SelWF h.n age sel) ∧
    (∀ sel, sdO heIgF h = .ok (some sel) → SelWF h.n age sel) ∧
    (∀ sel, He_WD h = .ok (some sel) → SelWF h.n age sel ∧ Contiguous sel) ∧
    (∀ sel, ML h = .ok (some sel) → SelWF h.n age sel ∧ Contiguous sel) ∧
    (∀ sel, MLstart h = .ok (some sel) → SelWF h.n age sel ∧ Contiguous sel) ∧
    (∀ sel, MLend h = .ok (some sel) → SelWF h.n age sel ∧ Contiguous sel) ∧
    (∀ sel, CE h = .ok (some sel) → SelWF h.n age sel) ∧
    (∀ sel, CEstart h = .ok (some sel) → SelWF h.n age sel ∧ Contiguous sel) ∧
    (∀ sel, CEend h = .ok (some sel) → SelWF h.n age sel ∧ Contiguous sel) := by
  have monoA : AgeNonDec h.n (col h "age") := by
    rw [col_eq hlage]
    exact mono
  have hsingle : ∀ (x : ℕ) (sel : List ℕ), x < h.n → sel = [x] →
      SelWF h.n age sel ∧ Contiguous sel := by
    intro x sel hx hsel
    subst hsel
    exact ⟨selWF_single hx, contiguous_single x⟩
  have hwindow : ∀ (sel : List ℕ), (∃ a1 a2, sel = idxWhere h.n (fun k =>
      decide (a1 ≤ col h "age" k) && decide (col h "age" k ≤ a2))) →
      SelWF h.n age sel ∧ Contiguous sel := by
    intro sel hshape
    obtain ⟨a1, a2, rfl⟩ := hshape
    exact ⟨selWF_idxWhere mono _, contiguous_ageWindow monoA a1 a2⟩
  have hfilter : ∀ (sel : List ℕ), (∃ p, sel = idxWhere h.n p) →
      SelWF h.n age sel := by
    intro sel hshape
    obtain ⟨p, rfl⟩ := hshape
    exact selWF_idxWhere mono p
  refine ⟨?_, ?_, ?_, ?_, ?_, ?_, ?_, ?_, ?_, ?_, ?_, ?_, ?_, ?_, ?_, ?_, ?_⟩
  · intro sel hsel
    simp only [init, Except.ok.injEq, Option.some.injEq] at hsel
    exact hsingle 0 sel hn hsel.symm
  · intro sel hsel
    simp only [final, Except.ok.injEq, Option.some.injEq] at hsel
    exact hsingle (h.n - 1) sel (by omega) hsel.symm
  · intro sel hsel
    exact hwindow sel (MS_shape hsel)
  · intro sel hsel
    exact hwindow sel (RGB_shape hsel)
  · intro sel hsel
    exact hfilter sel (HeIgnition_shape hsel)
  · intro sel hsel
    exact hfilter sel (HeCoreBurning_shape hsel)
  · intro sel hsel
    exact hwindow sel (HeShellBurning_shape hsel)
  · intro sel hsel
    exact hfilter sel (sdA_shape hsel)
  · intro sel hsel
    exact hfilter sel (sdB_shape hsel)
  · intro sel hsel
    exact hfilter sel (sdO_shape hsel)
  · intro sel hsel
    obtain ⟨a1, rfl⟩ := He_WD_shape hsel
    exact ⟨selWF_idxWhere mono _, contiguous_ageAfter monoA a1⟩
  · intro sel hsel
    exact hwindow sel (ML_shape hsel)
  · intro sel hsel
    obtain ⟨x, hx, rfl⟩ := MLstart_shape hsel
    exact ⟨selWF_single hx, contiguous_single x⟩
  · intro sel hsel
    obtain ⟨x, hx, rfl⟩ := MLend_shape hsel
    exact ⟨selWF_single hx, contiguous_single x⟩
  · intro sel hsel
    exact hfilter sel (CE_shape hsel)
  · intro sel hsel
    obtain ⟨x, hx, rfl⟩ := CEstart_shape hsel
    exact ⟨selWF_single hx, contiguous_single x⟩
  · intro sel hsel
    obtain ⟨x, hx, rfl⟩ := CEend_shape hsel
    exact ⟨selWF_single hx, contiguous_single x⟩

/-- C9 witness: the amended theorem instantiated on the one-row history, using
the `init` detector and its selection `[0]`. -/
theorem C9_witness : SelWF hC9w.n (listCol [0]) [0] ∧ Contiguous [0] :=
  (C9_amended igZero hC9w (listCol [0]) rfl
    (fun i j hij hj => by
      have hj1 : j < 1 := hj
      have hi0 : i = 0 := by omega
      have hj0 : j = 0 := by omega
      subst hi0
      subst hj0
      exact le_refl _) (by decide)).1 [0] rfl

end NNaps
